import Mathlib

/-!
# Overlay widget layer: `gui::LayerRenderer`

Shallow embedding of `drape_frontend/gui/layer_render.cpp`.

* `std::map<EWidget, drape_ptr<ShapeRenderer>>` is a list of pairs kept in strictly
  increasing key order (`TRenderers.WF`); the three map operations the source uses
  (`find`, `insert`, assignment through an iterator) are list functions.
* `drape_ptr<ShapeRenderer>` is unique ownership, so a moved renderer is a value `SR`;
  a null `drape_ptr` argument is `none`.
* `ref_ptr<Handle>` is `Option H`, with `H` the identity of a handle object.
* The methods of `ShapeRenderer` and of `Handle` are defined outside this file of the
  source; they are taken as the fields of `Capabilities`.
* Calls of `OnTapBegin`, `OnTap`, `OnTapEnd` and of `ProcessTapEvent` are recorded, in
  order, in a list of `Event`s returned next to the new state.
* `Render` records its calls on the ruler helper and its draws as `RenderEvent`s,
  `LayerCacher::RecacheWidgets` its calls of cache functions as `CacheEvent`s, and
  `ScaleLabelHandle::Update` its calls as `LabelCall`s.
-/

namespace gui

/-- Modelled from the spec: the enumeration `EWidget` is declared in a header that is not
part of the sources at hand. The kinds are the six the source file names; their relative
order (which is the iteration order of every map keyed by `EWidget`) is ruler, compass,
copyright, as the hit-test property of the spec iterates them, followed by scale-label,
choose-position-mark and debug-info. -/
inductive EWidget where
  | WIDGET_RULER
  | WIDGET_COMPASS
  | WIDGET_COPYRIGHT
  | WIDGET_SCALE_LABEL
  | WIDGET_CHOOSE_POSITION_MARK
  | WIDGET_DEBUG_INFO
deriving DecidableEq, Repr

/-- Position of an enumerator in the enumeration; `std::map` compares keys by it. -/
def EWidget.toNat : EWidget → Nat
  | .WIDGET_RULER => 0
  | .WIDGET_COMPASS => 1
  | .WIDGET_COPYRIGHT => 2
  | .WIDGET_SCALE_LABEL => 3
  | .WIDGET_CHOOSE_POSITION_MARK => 4
  | .WIDGET_DEBUG_INFO => 5

/-- The type `TRenderers` of the source, `map<EWidget, drape_ptr<ShapeRenderer>>`, as the
list of its entries in iteration order. -/
abbrev TRenderers (SR : Type) := List (EWidget × SR)

namespace TRenderers

variable {SR : Type}

/-- Invariant of `std::map`: keys strictly increasing (hence pairwise distinct). -/
def WF (m : TRenderers SR) : Prop :=
  List.Pairwise (fun a b => a.1.toNat < b.1.toNat) m

instance WF.decidable (m : TRenderers SR) : Decidable (WF m) :=
  inferInstanceAs (Decidable (List.Pairwise (fun a b : EWidget × SR => a.1.toNat < b.1.toNat) m))

/-- Lookup `m.find(k)`: `none` stands for `m.end()`, `some v` for an iterator to `(k, v)`. -/
def find (k : EWidget) : TRenderers SR → Option SR
  | [] => none
  | (k', v) :: m => if k' = k then some v else find k m

/-- Insertion `m.insert(make_pair(k, v))`: the entry is placed in key order and the flag
is `true`, unless the key is already present, in which case the map is left as it is and
the flag is `false`. -/
def insert (k : EWidget) (v : SR) : TRenderers SR → TRenderers SR × Bool
  | [] => ([(k, v)], true)
  | (k', v') :: m =>
    if k.toNat < k'.toNat then ((k, v) :: (k', v') :: m, true)
    else if k' = k then ((k', v') :: m, false)
    else ((k', v') :: (insert k v m).1, (insert k v m).2)

/-- Assignment `it->second = v` through the iterator `it = m.find(k)`. -/
def assign (k : EWidget) (v : SR) : TRenderers SR → TRenderers SR
  | [] => []
  | (k', v') :: m => if k' = k then (k', v) :: m else (k', v') :: assign k v m

end TRenderers

/-- The calls the layer renderer makes on its collaborators that are observable from
outside: a hit-test of the shape renderer of one widget kind, and the three
notifications of an overlay handle. -/
inductive Event (H : Type) where
  | ProcessTapEvent (w : EWidget)
  | OnTapBegin (h : H)
  | OnTap (h : H)
  | OnTapEnd (h : H)
deriving DecidableEq, Repr

/-- Is the event one of the notifications `OnTapBegin`, `OnTap`, `OnTapEnd`. -/
def Event.isNotification {H : Type} : Event H → Bool
  | .ProcessTapEvent _ => false
  | _ => true

/-- Is the event the click notification `OnTap`. -/
def Event.isOnTap {H : Type} : Event H → Bool
  | .OnTap _ => true
  | _ => false

/-- The notifications of a trace, in the order they fired. -/
def notifications {H : Type} (tr : List (Event H)) : List (Event H) :=
  tr.filter Event.isNotification

/-- Modelled from the spec: the capability interfaces of `ShapeRenderer` and of the
overlay handle (`shape_renderer.cpp` and the handle classes are not part of the sources
at hand). `FindHandle` is find-handle(key), `ProcessTapEvent` is hit-test(area),
`SetPivot` repositions a renderer in place, `GetFeatureId h` is
`h->GetOverlayID().m_featureId`, `IsTapped` is is-tapped(area), `Handles` lists the
handle objects a renderer holds, and `FeatureID_default` is the value `FeatureID()`. -/
structure Capabilities (SR H Area Key Point : Type) where
  FindHandle : SR → Key → Option H
  ProcessTapEvent : SR → Area → Option H
  SetPivot : SR → Point → SR
  GetFeatureId : H → Key
  IsTapped : H → Area → Bool
  Handles : SR → List H
  FeatureID_default : Key

/-- The data members of `LayerRenderer`. -/
structure LayerRenderer (SR H Key : Type) where
  m_renderers : TRenderers SR
  m_activeOverlay : Option H
  m_activeOverlayId : Key
deriving DecidableEq, Repr

variable {SR H Area Key Point : Type}

/-- A freshly constructed `LayerRenderer`: no widget, null active overlay, default key. -/
def LayerRenderer.empty (I : Capabilities SR H Area Key Point) : LayerRenderer SR H Key :=
  { m_renderers := [], m_activeOverlay := none, m_activeOverlayId := I.FeatureID_default }

/-- Membership test `LayerRenderer::HasWidget`. -/
def HasWidget (self : LayerRenderer SR H Key) (widget : EWidget) : Bool :=
  (TRenderers.find widget self.m_renderers).isSome

/-- One iteration of the loop of `LayerRenderer::Merge` on the entry `r` of the other
renderer; the Boolean is the local `activeOverlayFound`. -/
def Merge.step (I : Capabilities SR H Area Key Point)
    (acc : LayerRenderer SR H Key × Bool × List (Event H)) (r : EWidget × SR) :
    LayerRenderer SR H Key × Bool × List (Event H) :=
  match TRenderers.find r.1 acc.1.m_renderers with
  | some _ =>
    let newActiveOverlay := I.FindHandle r.2 acc.1.m_activeOverlayId
    let updateActive := acc.1.m_activeOverlay.isSome && newActiveOverlay.isSome
    let self1 := { acc.1 with m_renderers := TRenderers.assign r.1 r.2 acc.1.m_renderers }
    if !acc.2.1 && updateActive then
      ({ self1 with m_activeOverlay := newActiveOverlay }, true,
        acc.2.2 ++ (match newActiveOverlay with
                    | some h => [Event.OnTapBegin h]
                    | none => []))
    else (self1, acc.2.1, acc.2.2)
  | none =>
    ({ acc.1 with m_renderers := (TRenderers.insert r.1 r.2 acc.1.m_renderers).1 },
      acc.2.1, acc.2.2)

/-- The loop of `LayerRenderer::Merge` over the entries of the other renderer. -/
def Merge.loop (I : Capabilities SR H Area Key Point) :
    List (EWidget × SR) → LayerRenderer SR H Key × Bool × List (Event H) →
    LayerRenderer SR H Key × Bool × List (Event H)
  | [], acc => acc
  | r :: rs, acc => Merge.loop I rs (Merge.step I acc r)

/-- The method `LayerRenderer::Merge`: returns this renderer, the other renderer and the
events, after the call. -/
def Merge (I : Capabilities SR H Area Key Point) (self other : LayerRenderer SR H Key) :
    LayerRenderer SR H Key × LayerRenderer SR H Key × List (Event H) :=
  let out := Merge.loop I other.m_renderers (self, false, [])
  (out.1, { other with m_renderers := [] }, out.2.2)

/-- One iteration of the loop of `LayerRenderer::SetLayout`. -/
def SetLayout.step (I : Capabilities SR H Area Key Point) (self : LayerRenderer SR H Key)
    (node : EWidget × Point) : LayerRenderer SR H Key :=
  match TRenderers.find node.1 self.m_renderers with
  | some s =>
    { self with m_renderers := TRenderers.assign node.1 (I.SetPivot s node.2) self.m_renderers }
  | none => self

/-- The method `LayerRenderer::SetLayout`. -/
def SetLayout (I : Capabilities SR H Area Key Point) (self : LayerRenderer SR H Key)
    (info : List (EWidget × Point)) : LayerRenderer SR H Key :=
  info.foldl (SetLayout.step I) self

/-- The method `LayerRenderer::DestroyRenderers`. -/
def DestroyRenderers (self : LayerRenderer SR H Key) : LayerRenderer SR H Key :=
  { self with m_renderers := [] }

/-- Modelled from the spec: the macro `VERIFY` is defined outside the sources at hand.
The spec makes an insert conflict fatal (it "must abort/assert"), so `VERIFY` of a false
condition aborts, which is the result `none`, and of a true condition it continues. -/
def VERIFY (X : Bool) : Option Unit :=
  if X then some () else none

/-- The method `LayerRenderer::AddShapeRenderer`; a null `shape` is `none`, and the
result `none` is the abort of `VERIFY` on a key that is already present. -/
def AddShapeRenderer (self : LayerRenderer SR H Key) (widget : EWidget) (shape : Option SR) :
    Option (LayerRenderer SR H Key) :=
  match shape with
  | none => some self
  | some s =>
    match VERIFY (TRenderers.insert widget s self.m_renderers).2 with
    | some _ =>
      some { self with m_renderers := (TRenderers.insert widget s self.m_renderers).1 }
    | none => none

/-- A sequence of calls of `AddShapeRenderer` with non-null shapes, in order; `none` as
soon as one call aborts. -/
def AddShapeRenderers (self : LayerRenderer SR H Key) :
    List (EWidget × SR) → Option (LayerRenderer SR H Key)
  | [] => some self
  | c :: cs =>
    match AddShapeRenderer self c.1 (some c.2) with
    | some st => AddShapeRenderers st cs
    | none => none

/-- The calls `LayerRenderer::Render` makes: the two calls on the ruler helper and the
draw of the shape renderer of one widget kind against the screen. -/
inductive RenderEvent (Screen : Type) where
  | ResetTextDirtyFlag
  | RulerHelperUpdate (screen : Screen)
  | Render (w : EWidget) (screen : Screen)
deriving DecidableEq, Repr

/-- The loop of `LayerRenderer::Render` over the owned widgets. -/
def Render.loop {Screen : Type} (routingActive : Bool) (screen : Screen) :
    List (EWidget × SR) → List (RenderEvent Screen)
  | [] => []
  | r :: rs =>
    if routingActive && (r.1 == EWidget.WIDGET_COMPASS || r.1 == EWidget.WIDGET_RULER) then
      Render.loop routingActive screen rs
    else RenderEvent.Render r.1 screen :: Render.loop routingActive screen rs

/-- The method `LayerRenderer::Render`: the state after the call and the calls made, in
order. The GPU program manager is a handle passed on unchanged and is left out; a shape
renderer is drawn through its pointer, which the method does not assign. -/
def Render {Screen : Type} (self : LayerRenderer SR H Key) (routingActive : Bool)
    (screen : Screen) : LayerRenderer SR H Key × List (RenderEvent Screen) :=
  (self,
    (if HasWidget self EWidget.WIDGET_RULER then
      [RenderEvent.ResetTextDirtyFlag, RenderEvent.RulerHelperUpdate screen]
     else []) ++ Render.loop routingActive screen self.m_renderers)

/-- The widget kinds drawn by a list of calls, in order. -/
def drawn {Screen : Type} : List (RenderEvent Screen) → List EWidget
  | [] => []
  | RenderEvent.Render w _ :: tr => w :: drawn tr
  | _ :: tr => drawn tr

/-- The loop of `LayerRenderer::OnTouchDown` over the remaining entries `rs`. -/
def OnTouchDown.loop (I : Capabilities SR H Area Key Point) (touchArea : Area) :
    List (EWidget × SR) → LayerRenderer SR H Key → List (Event H) →
    Bool × LayerRenderer SR H Key × List (Event H)
  | [], self, tr => (false, self, tr)
  | r :: rs, self, tr =>
    match I.ProcessTapEvent r.2 touchArea with
    | some h =>
      (true, { self with m_activeOverlay := some h, m_activeOverlayId := I.GetFeatureId h },
        tr ++ [Event.ProcessTapEvent r.1, Event.OnTapBegin h])
    | none =>
      OnTouchDown.loop I touchArea rs { self with m_activeOverlay := none }
        (tr ++ [Event.ProcessTapEvent r.1])

/-- The method `LayerRenderer::OnTouchDown`: returned value, state and events. -/
def OnTouchDown (I : Capabilities SR H Area Key Point) (self : LayerRenderer SR H Key)
    (touchArea : Area) : Bool × LayerRenderer SR H Key × List (Event H) :=
  OnTouchDown.loop I touchArea self.m_renderers self []

/-- The method `LayerRenderer::OnTouchUp`. -/
def OnTouchUp (I : Capabilities SR H Area Key Point) (self : LayerRenderer SR H Key)
    (touchArea : Area) : LayerRenderer SR H Key × List (Event H) :=
  match self.m_activeOverlay with
  | some h =>
    ({ self with m_activeOverlay := none, m_activeOverlayId := I.FeatureID_default },
      (if I.IsTapped h touchArea then [Event.OnTap h] else []) ++ [Event.OnTapEnd h])
  | none => (self, [])

/-- The method `LayerRenderer::OnTouchCancel`. -/
def OnTouchCancel (I : Capabilities SR H Area Key Point) (self : LayerRenderer SR H Key)
    (_touchArea : Area) : LayerRenderer SR H Key × List (Event H) :=
  match self.m_activeOverlay with
  | some h =>
    ({ self with m_activeOverlay := none, m_activeOverlayId := I.FeatureID_default },
      [Event.OnTapEnd h])
  | none => (self, [])

/-- The handle `h` is held by a shape renderer that the layer renderer owns. -/
def Owns (I : Capabilities SR H Area Key Point) (self : LayerRenderer SR H Key) (h : H) : Prop :=
  ∃ p ∈ self.m_renderers, h ∈ I.Handles p.2

instance Owns.decidable [DecidableEq H] (I : Capabilities SR H Area Key Point)
    (self : LayerRenderer SR H Key) (h : H) : Decidable (Owns I self h) :=
  inferInstanceAs (Decidable (∃ p ∈ self.m_renderers, h ∈ I.Handles p.2))

/-- What a shape renderer may be relied on to do: handles it returns are handles it
holds, `FindHandle` returns a handle carrying the key asked for, and `SetPivot` keeps
the handle objects. -/
structure Capabilities.Lawful (I : Capabilities SR H Area Key Point) : Prop where
  findHandle_mem : ∀ s k h, I.FindHandle s k = some h → h ∈ I.Handles s
  findHandle_key : ∀ s k h, I.FindHandle s k = some h → I.GetFeatureId h = k
  processTapEvent_mem : ∀ s a h, I.ProcessTapEvent s a = some h → h ∈ I.Handles s
  setPivot_handles : ∀ s p, I.Handles (I.SetPivot s p) = I.Handles s

/-- States of a layer renderer reachable from a freshly constructed one by calls of its
methods; the argument of `Merge` is itself a reachable layer renderer, and a call of
`AddShapeRenderer` that aborts reaches nothing. -/
inductive Reachable (I : Capabilities SR H Area Key Point) : LayerRenderer SR H Key → Prop where
  | empty : Reachable I (LayerRenderer.empty I)
  | addShapeRenderer {st st1 : LayerRenderer SR H Key} (w : EWidget) (shape : Option SR) :
      Reachable I st → AddShapeRenderer st w shape = some st1 → Reachable I st1
  | merge {st other : LayerRenderer SR H Key} :
      Reachable I st → Reachable I other → Reachable I (Merge I st other).1
  | merged {st other : LayerRenderer SR H Key} :
      Reachable I st → Reachable I other → Reachable I (Merge I st other).2.1
  | setLayout {st : LayerRenderer SR H Key} (info : List (EWidget × Point)) :
      Reachable I st → Reachable I (SetLayout I st info)
  | onTouchDown {st : LayerRenderer SR H Key} (area : Area) :
      Reachable I st → Reachable I (OnTouchDown I st area).2.1
  | onTouchUp {st : LayerRenderer SR H Key} (area : Area) :
      Reachable I st → Reachable I (OnTouchUp I st area).1
  | onTouchCancel {st : LayerRenderer SR H Key} (area : Area) :
      Reachable I st → Reachable I (OnTouchCancel I st area).1
  | destroyRenderers {st : LayerRenderer SR H Key} :
      Reachable I st → Reachable I (DestroyRenderers st)

/-! ### The scale label -/

/-- Modelled from the spec: `strings::to_string` is defined outside the sources at hand;
it is the decimal rendering of an integer, with a minus sign in front of a negative one. -/
def to_string : Int → String
  | Int.ofNat m => Nat.repr m
  | Int.negSucc m => "-" ++ Nat.repr (m + 1)

/-- The fields of `MutableLabelDrawer::Params` that bound the content of a label. -/
structure MutableLabelDrawer.Params where
  m_alphabet : String
  m_maxLength : Nat
deriving DecidableEq, Repr

/-- The alphabet and the maximum length `LayerCacher::CacheScaleLabel` declares. -/
def CacheScaleLabel.params : MutableLabelDrawer.Params :=
  { m_alphabet := "Scale: 1234567890", m_maxLength := 10 }

/-- The calls `ScaleLabelHandle::Update` makes on the handle and on its base class; the
pivot is a pair of floats and is not recorded. -/
inductive LabelCall where
  | SetContent (content : String)
  | SetPivot
  | TBaseUpdate
deriving DecidableEq, Repr

/-- The contents passed to `SetContent` by a list of calls, in order. -/
def setContents : List LabelCall → List String
  | [] => []
  | LabelCall.SetContent c :: cs => c :: setContents cs
  | _ :: cs => setContents cs

/-- The data member of `ScaleLabelHandle`. -/
structure ScaleLabelHandle where
  m_scale : Int
deriving DecidableEq, Repr

/-- The constructor of `ScaleLabelHandle`: `m_scale(0)`. -/
def ScaleLabelHandle.create : ScaleLabelHandle :=
  { m_scale := 0 }

/-- The string `"Scale : " + strings::to_string(m_scale)` the handle sets as content. -/
def ScaleLabelHandle.content (scale : Int) : String :=
  "Scale : " ++ to_string scale

/-- The method `ScaleLabelHandle::Update`; `GetDrawTileScale` is `df::GetDrawTileScale`,
defined outside the sources at hand. Returns the handle and the calls made, in order. -/
def ScaleLabelHandle.Update {Screen : Type} (GetDrawTileScale : Screen → Int)
    (self : ScaleLabelHandle) (screen : Screen) : ScaleLabelHandle × List LabelCall :=
  let newScale := GetDrawTileScale screen
  if self.m_scale ≠ newScale then
    ({ self with m_scale := newScale },
      [LabelCall.SetContent (ScaleLabelHandle.content newScale), LabelCall.SetPivot,
        LabelCall.TBaseUpdate])
  else (self, [LabelCall.SetPivot, LabelCall.TBaseUpdate])

/-! ### The widget cache factory `LayerCacher` -/

/-- Modelled from the spec: the widget classes `Compass`, `Ruler`, `CopyrightLabel` and
`MutableLabelDrawer` are defined outside the sources at hand. The first three have a
`Draw` that yields a `drape_ptr<ShapeRenderer>` for a position, possibly null; for the
scale label the source creates the shape renderer itself with `make_unique_dp`, so it is
never null, and `MutableLabelDrawer::Draw` fills it. -/
structure Drawers (SR Position : Type) where
  CompassDraw : Position → Option SR
  RulerDraw : Position → Option SR
  CopyrightLabelDraw : Position → Option SR
  MutableLabelDraw : Position → SR

/-- The four cache functions of `LayerCacher` that the table `cacheFunctions` binds. -/
inductive CacheFunction where
  | CacheCompass
  | CacheRuler
  | CacheCopyright
  | CacheScaleLabel
deriving DecidableEq, Repr

/-- The calls `LayerCacher::RecacheWidgets` makes: a cache function with the position of
its widget, and the final `GLFunctions::glFlush`. -/
inductive CacheEvent (Position : Type) where
  | Call (f : CacheFunction) (position : Position)
  | glFlush
deriving DecidableEq, Repr

/-- The method `LayerCacher::CacheCompass`; the returned size is a pair of floats and is
left out, `none` is an abort inside `AddShapeRenderer`. -/
def LayerCacher.CacheCompass {Position : Type} (D : Drawers SR Position) (position : Position)
    (renderer : LayerRenderer SR H Key) : Option (LayerRenderer SR H Key) :=
  AddShapeRenderer renderer EWidget.WIDGET_COMPASS (D.CompassDraw position)

/-- The method `LayerCacher::CacheRuler`. -/
def LayerCacher.CacheRuler {Position : Type} (D : Drawers SR Position) (position : Position)
    (renderer : LayerRenderer SR H Key) : Option (LayerRenderer SR H Key) :=
  AddShapeRenderer renderer EWidget.WIDGET_RULER (D.RulerDraw position)

/-- The method `LayerCacher::CacheCopyright`. -/
def LayerCacher.CacheCopyright {Position : Type} (D : Drawers SR Position) (position : Position)
    (renderer : LayerRenderer SR H Key) : Option (LayerRenderer SR H Key) :=
  AddShapeRenderer renderer EWidget.WIDGET_COPYRIGHT (D.CopyrightLabelDraw position)

/-- The method `LayerCacher::CacheScaleLabel`. -/
def LayerCacher.CacheScaleLabel {Position : Type} (D : Drawers SR Position) (position : Position)
    (renderer : LayerRenderer SR H Key) : Option (LayerRenderer SR H Key) :=
  AddShapeRenderer renderer EWidget.WIDGET_SCALE_LABEL (some (D.MutableLabelDraw position))

/-- The static table `cacheFunctions` of `RecacheWidgets`, a `std::map` and so listed in
key order. -/
def LayerCacher.cacheFunctions : TRenderers CacheFunction :=
  [(EWidget.WIDGET_RULER, CacheFunction.CacheRuler),
   (EWidget.WIDGET_COMPASS, CacheFunction.CacheCompass),
   (EWidget.WIDGET_COPYRIGHT, CacheFunction.CacheCopyright),
   (EWidget.WIDGET_SCALE_LABEL, CacheFunction.CacheScaleLabel)]

/-- The call `cacheFunction->second(node.second, make_ref(renderer), textures)` of a
bound cache function. -/
def CacheFunction.call {Position : Type} (D : Drawers SR Position) :
    CacheFunction → Position → LayerRenderer SR H Key → Option (LayerRenderer SR H Key)
  | .CacheCompass => LayerCacher.CacheCompass D
  | .CacheRuler => LayerCacher.CacheRuler D
  | .CacheCopyright => LayerCacher.CacheCopyright D
  | .CacheScaleLabel => LayerCacher.CacheScaleLabel D

/-- The widget kind under which a cache function registers its shape renderer. -/
def CacheFunction.kind : CacheFunction → EWidget
  | .CacheCompass => EWidget.WIDGET_COMPASS
  | .CacheRuler => EWidget.WIDGET_RULER
  | .CacheCopyright => EWidget.WIDGET_COPYRIGHT
  | .CacheScaleLabel => EWidget.WIDGET_SCALE_LABEL

/-- The shape renderer a cache function passes to `AddShapeRenderer`. -/
def CacheFunction.shape {Position : Type} (D : Drawers SR Position) :
    CacheFunction → Position → Option SR
  | .CacheCompass, position => D.CompassDraw position
  | .CacheRuler, position => D.RulerDraw position
  | .CacheCopyright, position => D.CopyrightLabelDraw position
  | .CacheScaleLabel, position => some (D.MutableLabelDraw position)

/-- The loop of `LayerCacher::RecacheWidgets` over the init map. -/
def LayerCacher.RecacheWidgets.loop {Position : Type} (D : Drawers SR Position) :
    List (EWidget × Position) → LayerRenderer SR H Key → List (CacheEvent Position) →
    Option (LayerRenderer SR H Key × List (CacheEvent Position))
  | [], renderer, tr => some (renderer, tr)
  | node :: rest, renderer, tr =>
    match TRenderers.find node.1 LayerCacher.cacheFunctions with
    | some f =>
      match f.call D node.2 renderer with
      | some renderer1 =>
        LayerCacher.RecacheWidgets.loop D rest renderer1 (tr ++ [CacheEvent.Call f node.2])
      | none => none
    | none => LayerCacher.RecacheWidgets.loop D rest renderer tr

/-- The method `LayerCacher::RecacheWidgets`: the new layer renderer and the calls made,
or `none` if a call aborted. -/
def LayerCacher.RecacheWidgets {Position : Type} (I : Capabilities SR H Area Key Point)
    (D : Drawers SR Position) (initInfo : List (EWidget × Position)) :
    Option (LayerRenderer SR H Key × List (CacheEvent Position)) :=
  match LayerCacher.RecacheWidgets.loop D initInfo (LayerRenderer.empty I) [] with
  | some out => some (out.1, out.2 ++ [CacheEvent.glFlush])
  | none => none

/-- The calls of cache functions in a list of events, in order. -/
def cacheCalls {Position : Type} : List (CacheEvent Position) → List (CacheFunction × Position)
  | [] => []
  | CacheEvent.Call f position :: tr => (f, position) :: cacheCalls tr
  | CacheEvent.glFlush :: tr => cacheCalls tr

/-! ### A concrete instance of the capability interfaces

Used to evaluate the methods on explicit inputs. A handle object has an address (its
identity), a feature id and the list of touch areas that hit it; a shape renderer has a
pivot and holds a list of handle objects. -/

/-- A handle object of the concrete instance. -/
structure DemoHandle where
  addr : Nat
  featureId : Nat
  region : List Nat
deriving DecidableEq, Repr

/-- A shape renderer of the concrete instance. -/
structure DemoShape where
  pivot : Nat
  handles : List DemoHandle
deriving DecidableEq, Repr

/-- The concrete instance: touch areas, feature ids and pivots are numbers. -/
def demo : Capabilities DemoShape DemoHandle Nat Nat Nat where
  FindHandle s k := s.handles.find? (fun h => h.featureId == k)
  ProcessTapEvent s a := s.handles.find? (fun h => h.region.contains a)
  SetPivot s p := { s with pivot := p }
  GetFeatureId h := h.featureId
  IsTapped h a := h.region.contains a
  Handles s := s.handles
  FeatureID_default := 0

/-- A compass handle at address 10 with feature id 7, hit by touch area 1. -/
def demoCompassHandle : DemoHandle := { addr := 10, featureId := 7, region := [1] }

/-- The handle of a rebuilt compass: same feature id 7, another address. -/
def demoCompassHandleNew : DemoHandle := { addr := 20, featureId := 7, region := [1] }

/-- A ruler handle of a rebuilt ruler that also carries feature id 7. -/
def demoRulerHandleNew : DemoHandle := { addr := 30, featureId := 7, region := [2] }

/-- A layer renderer owning a ruler, a compass and a copyright widget, none active. -/
def demoLayer : LayerRenderer DemoShape DemoHandle Nat :=
  { m_renderers :=
      [(EWidget.WIDGET_RULER, { pivot := 0, handles := [] }),
       (EWidget.WIDGET_COMPASS, { pivot := 0, handles := [demoCompassHandle] }),
       (EWidget.WIDGET_COPYRIGHT, { pivot := 0, handles := [] })],
    m_activeOverlay := none,
    m_activeOverlayId := 0 }

/-- The layer renderer `demoLayer` while its compass handle is pressed. -/
def demoPressed : LayerRenderer DemoShape DemoHandle Nat :=
  { demoLayer with m_activeOverlay := some demoCompassHandle, m_activeOverlayId := 7 }

/-- The layer renderer `demoPressed` after its renderers were destroyed. -/
def demoDestroyed : LayerRenderer DemoShape DemoHandle Nat :=
  DestroyRenderers demoPressed

/-- The layer renderer `demoPressed` after a touch-down that hit nothing: no overlay is
active and the stored key is still 7. -/
def demoMissed : LayerRenderer DemoShape DemoHandle Nat :=
  { demoLayer with m_activeOverlay := none, m_activeOverlayId := 7 }

/-- A rebuilt snapshot whose compass holds no handle any more. -/
def demoSnapshotLost : LayerRenderer DemoShape DemoHandle Nat :=
  { m_renderers := [(EWidget.WIDGET_COMPASS, { pivot := 0, handles := [] })],
    m_activeOverlay := none,
    m_activeOverlayId := 0 }

/-- A rebuilt snapshot whose compass holds a new handle with feature id 7. -/
def demoSnapshotKept : LayerRenderer DemoShape DemoHandle Nat :=
  { m_renderers := [(EWidget.WIDGET_COMPASS, { pivot := 0, handles := [demoCompassHandleNew] })],
    m_activeOverlay := none,
    m_activeOverlayId := 0 }

/-- A rebuilt snapshot in which both the ruler and the compass hold a handle with
feature id 7. -/
def demoSnapshotBoth : LayerRenderer DemoShape DemoHandle Nat :=
  { m_renderers :=
      [(EWidget.WIDGET_RULER, { pivot := 0, handles := [demoRulerHandleNew] }),
       (EWidget.WIDGET_COMPASS, { pivot := 0, handles := [demoCompassHandleNew] })],
    m_activeOverlay := none,
    m_activeOverlayId := 0 }

/-- Drawers of the concrete instance: the position becomes the pivot; the ruler yields a
null shape renderer at position 0. -/
def demoDrawers : Drawers DemoShape Nat where
  CompassDraw p := some { pivot := p, handles := [demoCompassHandle] }
  RulerDraw p := if p = 0 then none else some { pivot := p, handles := [] }
  CopyrightLabelDraw p := some { pivot := p, handles := [] }
  MutableLabelDraw p := { pivot := p, handles := [] }

/-- An init map with three registered kinds and the choose-position mark, which has no
cache function. -/
def demoInitInfo : List (EWidget × Nat) :=
  [(EWidget.WIDGET_RULER, 1), (EWidget.WIDGET_COMPASS, 2), (EWidget.WIDGET_SCALE_LABEL, 3),
   (EWidget.WIDGET_CHOOSE_POSITION_MARK, 4)]

end gui

/-! ## Theorems -/

namespace gui

variable {SR H Area Key Point : Type}

/-! ### The map operations -/

namespace TRenderers

theorem find_assign_self (k : EWidget) (v : SR) :
    ∀ m : TRenderers SR, (find k m).isSome = true → find k (assign k v m) = some v := by
  intro m
  induction m with
  | nil => intro h; simp [find] at h
  | cons p m ih =>
    obtain ⟨k1, v1⟩ := p
    intro h
    by_cases hk : k1 = k
    · simp [assign, find, hk]
    · simp [find, hk] at h
      simp [assign, find, hk, ih h]

theorem find_assign_of_ne {k k1 : EWidget} (hne : k1 ≠ k) (v : SR) :
    ∀ m : TRenderers SR, find k (assign k1 v m) = find k m := by
  intro m
  induction m with
  | nil => rfl
  | cons p m ih =>
    obtain ⟨k2, v2⟩ := p
    by_cases hk : k2 = k1
    · subst hk
      simp [assign, find, hne]
    · by_cases hk2 : k2 = k
      · subst hk2
        simp [assign, find, hk]
      · simp [assign, find, hk, hk2, ih]

theorem find_insert_self (k : EWidget) (v : SR) :
    ∀ m : TRenderers SR, find k m = none → find k (insert k v m).1 = some v := by
  intro m
  induction m with
  | nil => intro _; simp [insert, find]
  | cons p m ih =>
    obtain ⟨k1, v1⟩ := p
    intro h
    by_cases hk : k1 = k
    · simp [find, hk] at h
    · simp [find, hk] at h
      by_cases hlt : k.toNat < k1.toNat
      · simp [insert, hlt, find]
      · simp [insert, hlt, find, hk, ih h]

theorem find_insert_of_ne {k k1 : EWidget} (hne : k1 ≠ k) (v : SR) :
    ∀ m : TRenderers SR, find k (insert k1 v m).1 = find k m := by
  intro m
  induction m with
  | nil => simp [insert, find, hne]
  | cons p m ih =>
    obtain ⟨k2, v2⟩ := p
    by_cases hlt : k1.toNat < k2.toNat
    · simp [insert, hlt, find, hne]
    · by_cases hk : k2 = k1
      · simp [insert, hlt, hk]
      · by_cases hk2 : k2 = k
        · subst hk2
          simp [insert, hlt, hk, find]
        · simp [insert, hlt, hk, find, hk2, ih]

theorem find_eq_none_of_forall_ne {k : EWidget} :
    ∀ m : TRenderers SR, (∀ p ∈ m, p.1 ≠ k) → find k m = none := by
  intro m
  induction m with
  | nil => intro _; rfl
  | cons p m ih =>
    obtain ⟨k1, v1⟩ := p
    intro h
    have h1 : k1 ≠ k := h (k1, v1) (List.mem_cons_self _ _)
    simp [find, h1]
    exact ih (fun q hq => h q (List.mem_cons_of_mem _ hq))

theorem forall_ne_of_find_eq_none {k : EWidget} :
    ∀ m : TRenderers SR, find k m = none → ∀ p ∈ m, p.1 ≠ k := by
  intro m
  induction m with
  | nil => intro _ p hp; simp at hp
  | cons q m ih =>
    obtain ⟨k1, v1⟩ := q
    intro h p hp
    by_cases hk : k1 = k
    · simp [find, hk] at h
    · simp [find, hk] at h
      rcases List.mem_cons.1 hp with rfl | hp
      · exact hk
      · exact ih h p hp

theorem find_cons_self (k : EWidget) (v : SR) (m : TRenderers SR) :
    find k ((k, v) :: m) = some v := by
  simp [find]

theorem find_cons_of_ne {k k1 : EWidget} (hne : k1 ≠ k) (v : SR) (m : TRenderers SR) :
    find k ((k1, v) :: m) = find k m := by
  simp [find, hne]

theorem toNat_injective {a b : EWidget} (h : a.toNat = b.toNat) : a = b := by
  cases a <;> cases b <;> first | rfl | (simp [EWidget.toNat] at h)

theorem WF.tail {p : EWidget × SR} {m : TRenderers SR} (h : WF (p :: m)) : WF m :=
  (List.pairwise_cons.1 h).2

theorem WF.head_ne {p : EWidget × SR} {m : TRenderers SR} (h : WF (p :: m)) :
    ∀ q ∈ m, q.1 ≠ p.1 := by
  intro q hq heq
  have := (List.pairwise_cons.1 h).1 q hq
  rw [heq] at this
  exact Nat.lt_irrefl _ this

/-- In a well-formed map the entry found for `k` splits the list: the entries before it
have smaller keys and are the ones `find` returns for their keys. -/
theorem exists_split_of_find {k : EWidget} {v : SR} :
    ∀ m : TRenderers SR, WF m → find k m = some v →
      ∃ pre post, m = pre ++ (k, v) :: post ∧
        ∀ p ∈ pre, p.1.toNat < k.toNat ∧ find p.1 m = some p.2 := by
  intro m
  induction m with
  | nil => intro _ h; simp [find] at h
  | cons q m ih =>
    obtain ⟨k1, v1⟩ := q
    intro hwf h
    by_cases hk : k1 = k
    · subst hk
      simp [find] at h
      subst h
      exact ⟨[], m, rfl, by simp⟩
    · simp [find, hk] at h
      obtain ⟨pre, post, hm, hpre⟩ := ih (WF.tail hwf) h
      refine ⟨(k1, v1) :: pre, post, by simp [hm], ?_⟩
      intro p hp
      rcases List.mem_cons.1 hp with rfl | hp
      · refine ⟨?_, by simp [find]⟩
        have hmem : (k, v) ∈ m := by rw [hm]; simp
        exact (List.pairwise_cons.1 hwf).1 (k, v) hmem
      · refine ⟨(hpre p hp).1, ?_⟩
        have hmem : p ∈ m := by rw [hm]; simp [hp]
        have hne : k1 ≠ p.1 := fun heq => WF.head_ne hwf p hmem heq.symm
        simp only [find, hne, if_false]
        exact (hpre p hp).2

end TRenderers

/-! ### The loop of `Merge` -/

namespace Merge

theorem step_renderers (I : Capabilities SR H Area Key Point)
    (acc : LayerRenderer SR H Key × Bool × List (Event H)) (r : EWidget × SR) :
    (step I acc r).1.m_renderers =
      if (TRenderers.find r.1 acc.1.m_renderers).isSome
      then TRenderers.assign r.1 r.2 acc.1.m_renderers
      else (TRenderers.insert r.1 r.2 acc.1.m_renderers).1 := by
  cases hfind : TRenderers.find r.1 acc.1.m_renderers with
  | none => simp [step, hfind]
  | some s0 =>
    simp only [step, hfind]
    split <;> simp

theorem step_activeOverlayId (I : Capabilities SR H Area Key Point)
    (acc : LayerRenderer SR H Key × Bool × List (Event H)) (r : EWidget × SR) :
    (step I acc r).1.m_activeOverlayId = acc.1.m_activeOverlayId := by
  cases hfind : TRenderers.find r.1 acc.1.m_renderers with
  | none => simp [step, hfind]
  | some s0 =>
    simp only [step, hfind]
    split <;> simp

theorem step_find_self (I : Capabilities SR H Area Key Point)
    (acc : LayerRenderer SR H Key × Bool × List (Event H)) (r : EWidget × SR) :
    TRenderers.find r.1 (step I acc r).1.m_renderers = some r.2 := by
  rw [step_renderers]
  cases hfind : TRenderers.find r.1 acc.1.m_renderers with
  | none => simpa using TRenderers.find_insert_self r.1 r.2 _ hfind
  | some s0 =>
    simpa using TRenderers.find_assign_self r.1 r.2 acc.1.m_renderers (by simp [hfind])

theorem step_find_of_ne (I : Capabilities SR H Area Key Point)
    (acc : LayerRenderer SR H Key × Bool × List (Event H)) (r : EWidget × SR)
    {k : EWidget} (hne : r.1 ≠ k) :
    TRenderers.find k (step I acc r).1.m_renderers = TRenderers.find k acc.1.m_renderers := by
  rw [step_renderers]
  split
  · exact TRenderers.find_assign_of_ne hne _ _
  · exact TRenderers.find_insert_of_ne hne _ _

/-- An iteration that does not reattach leaves the active overlay, the flag and the
events as they were. -/
theorem step_keep (I : Capabilities SR H Area Key Point)
    (acc : LayerRenderer SR H Key × Bool × List (Event H)) (r : EWidget × SR)
    (h : acc.2.1 = true ∨ acc.1.m_activeOverlay = none ∨
      TRenderers.find r.1 acc.1.m_renderers = none ∨
      I.FindHandle r.2 acc.1.m_activeOverlayId = none) :
    (step I acc r).1.m_activeOverlay = acc.1.m_activeOverlay ∧
      (step I acc r).2.1 = acc.2.1 ∧ (step I acc r).2.2 = acc.2.2 := by
  cases hfind : TRenderers.find r.1 acc.1.m_renderers with
  | none => simp [step, hfind]
  | some s0 =>
    simp only [step, hfind]
    rcases h with h | h | h | h
    · simp [h]
    · simp [h]
    · simp [hfind] at h
    · simp [h]

/-- An iteration that reattaches: nothing reattached so far, an overlay is active, this
renderer owns the kind and the incoming shape renderer resolves the stored key. -/
theorem step_reattach (I : Capabilities SR H Area Key Point)
    (acc : LayerRenderer SR H Key × Bool × List (Event H)) (r : EWidget × SR) {e : H}
    (hfound : acc.2.1 = false) (hact : acc.1.m_activeOverlay.isSome = true)
    (hown : (TRenderers.find r.1 acc.1.m_renderers).isSome = true)
    (hres : I.FindHandle r.2 acc.1.m_activeOverlayId = some e) :
    (step I acc r).1.m_activeOverlay = some e ∧
      (step I acc r).2.1 = true ∧ (step I acc r).2.2 = acc.2.2 ++ [Event.OnTapBegin e] := by
  cases hfind : TRenderers.find r.1 acc.1.m_renderers with
  | none => simp [hfind] at hown
  | some s0 => simp [step, hfind, hfound, hact, hres]

theorem loop_append (I : Capabilities SR H Area Key Point) :
    ∀ (xs ys : List (EWidget × SR)) (acc : LayerRenderer SR H Key × Bool × List (Event H)),
      loop I (xs ++ ys) acc = loop I ys (loop I xs acc) := by
  intro xs
  induction xs with
  | nil => intro ys acc; rfl
  | cons x xs ih => intro ys acc; simp [loop, ih]

theorem loop_activeOverlayId (I : Capabilities SR H Area Key Point) :
    ∀ (rs : List (EWidget × SR)) (acc : LayerRenderer SR H Key × Bool × List (Event H)),
      (loop I rs acc).1.m_activeOverlayId = acc.1.m_activeOverlayId := by
  intro rs
  induction rs with
  | nil => intro acc; rfl
  | cons r rs ih => intro acc; simp [loop, ih, step_activeOverlayId]

theorem loop_find_of_forall_ne (I : Capabilities SR H Area Key Point) {k : EWidget} :
    ∀ (rs : List (EWidget × SR)) (acc : LayerRenderer SR H Key × Bool × List (Event H)),
      (∀ r ∈ rs, r.1 ≠ k) →
      TRenderers.find k (loop I rs acc).1.m_renderers = TRenderers.find k acc.1.m_renderers := by
  intro rs
  induction rs with
  | nil => intro acc _; rfl
  | cons r rs ih =>
    intro acc h
    simp only [loop]
    rw [ih _ (fun q hq => h q (List.mem_cons_of_mem _ hq))]
    exact step_find_of_ne I acc r (h r (List.mem_cons_self _ _))

theorem loop_find_of_find (I : Capabilities SR H Area Key Point) {k : EWidget} {s : SR} :
    ∀ (rs : List (EWidget × SR)) (acc : LayerRenderer SR H Key × Bool × List (Event H)),
      TRenderers.WF rs → TRenderers.find k rs = some s →
      TRenderers.find k (loop I rs acc).1.m_renderers = some s := by
  intro rs
  induction rs with
  | nil => intro acc _ h; simp [TRenderers.find] at h
  | cons r rs ih =>
    obtain ⟨k1, v1⟩ := r
    intro acc hwf h
    simp only [loop]
    by_cases hk : k1 = k
    · subst hk
      simp [TRenderers.find] at h
      subst h
      rw [loop_find_of_forall_ne I rs _ (TRenderers.WF.head_ne hwf)]
      exact step_find_self I acc (k1, v1)
    · simp [TRenderers.find, hk] at h
      exact ih _ (TRenderers.WF.tail hwf) h

/-- Once the flag is set, or while no overlay is active, the rest of the loop leaves the
active overlay, the flag and the events as they are. -/
theorem loop_keep (I : Capabilities SR H Area Key Point) :
    ∀ (rs : List (EWidget × SR)) (acc : LayerRenderer SR H Key × Bool × List (Event H)),
      (acc.2.1 = true ∨ acc.1.m_activeOverlay = none) →
      (loop I rs acc).1.m_activeOverlay = acc.1.m_activeOverlay ∧
        (loop I rs acc).2.1 = acc.2.1 ∧ (loop I rs acc).2.2 = acc.2.2 := by
  intro rs
  induction rs with
  | nil => intro acc _; exact ⟨rfl, rfl, rfl⟩
  | cons r rs ih =>
    intro acc h
    have hs := step_keep I acc r (by rcases h with h | h; exact Or.inl h; exact Or.inr (Or.inl h))
    simp only [loop]
    have hi := ih (step I acc r) (by
      rcases h with h | h
      · exact Or.inl (hs.2.1.trans h)
      · exact Or.inr (hs.1.trans h))
    exact ⟨hi.1.trans hs.1, hi.2.1.trans hs.2.1, hi.2.2.trans hs.2.2⟩

/-- The loop never resets the active overlay: once present it stays present. -/
theorem loop_activeOverlay_isSome (I : Capabilities SR H Area Key Point) :
    ∀ (rs : List (EWidget × SR)) (acc : LayerRenderer SR H Key × Bool × List (Event H)),
      acc.1.m_activeOverlay.isSome = true → (loop I rs acc).1.m_activeOverlay.isSome = true := by
  intro rs
  induction rs with
  | nil => intro acc h; exact h
  | cons r rs ih =>
    intro acc h
    simp only [loop]
    apply ih
    by_cases hkeep : acc.2.1 = true ∨ acc.1.m_activeOverlay = none ∨
        TRenderers.find r.1 acc.1.m_renderers = none ∨
        I.FindHandle r.2 acc.1.m_activeOverlayId = none
    · rw [(step_keep I acc r hkeep).1]; exact h
    · simp only [not_or] at hkeep
      obtain ⟨h1, -, h3, h4⟩ := hkeep
      obtain ⟨e, he⟩ := Option.ne_none_iff_exists'.1 h4
      have hs := step_reattach I acc r (by simpa using h1) h
        (by cases hx : TRenderers.find r.1 acc.1.m_renderers <;> simp_all) he
      rw [hs.1]; rfl

/-- The events of the loop: either none is added, or the flag was clear and exactly one
`OnTapBegin` is added. -/
theorem loop_events (I : Capabilities SR H Area Key Point) :
    ∀ (rs : List (EWidget × SR)) (acc : LayerRenderer SR H Key × Bool × List (Event H)),
      (loop I rs acc).2.2 = acc.2.2 ∨
        (acc.2.1 = false ∧ ∃ e, (loop I rs acc).1.m_activeOverlay = some e ∧
          (loop I rs acc).2.2 = acc.2.2 ++ [Event.OnTapBegin e]) := by
  intro rs
  induction rs with
  | nil => intro acc; exact Or.inl rfl
  | cons r rs ih =>
    intro acc
    simp only [loop]
    by_cases hkeep : acc.2.1 = true ∨ acc.1.m_activeOverlay = none ∨
        TRenderers.find r.1 acc.1.m_renderers = none ∨
        I.FindHandle r.2 acc.1.m_activeOverlayId = none
    · have hs := step_keep I acc r hkeep
      rcases ih (step I acc r) with h | ⟨hf, e, he, htr⟩
      · exact Or.inl (h.trans hs.2.2)
      · refine Or.inr ⟨hs.2.1 ▸ hf, e, he, ?_⟩
        rw [htr, hs.2.2]
    · simp only [not_or] at hkeep
      obtain ⟨h1, h2, h3, h4⟩ := hkeep
      obtain ⟨e, he⟩ := Option.ne_none_iff_exists'.1 h4
      have hs := step_reattach I acc r (by simpa using h1)
        (by cases hx : acc.1.m_activeOverlay <;> simp_all)
        (by cases hx : TRenderers.find r.1 acc.1.m_renderers <;> simp_all) he
      have hk := loop_keep I rs (step I acc r) (Or.inl hs.2.1)
      refine Or.inr ⟨by simpa using h1, e, ?_, ?_⟩
      · rw [hk.1, hs.1]
      · rw [hk.2.2, hs.2.2]

/-- Entries that this renderer does not own, or whose shape renderer does not resolve the
stored key, leave the active overlay, the flag and the events as they are. -/
theorem loop_no_match (I : Capabilities SR H Area Key Point) :
    ∀ (rs : List (EWidget × SR)) (acc : LayerRenderer SR H Key × Bool × List (Event H)),
      TRenderers.WF rs →
      (∀ p ∈ rs, (TRenderers.find p.1 acc.1.m_renderers).isSome = true →
        I.FindHandle p.2 acc.1.m_activeOverlayId = none) →
      (loop I rs acc).1.m_activeOverlay = acc.1.m_activeOverlay ∧
        (loop I rs acc).2.1 = acc.2.1 ∧ (loop I rs acc).2.2 = acc.2.2 := by
  intro rs
  induction rs with
  | nil => intro acc _ _; exact ⟨rfl, rfl, rfl⟩
  | cons r rs ih =>
    intro acc hwf h
    have hr := h r (List.mem_cons_self _ _)
    have hs := step_keep I acc r (by
      cases hfind : TRenderers.find r.1 acc.1.m_renderers with
      | none => exact Or.inr (Or.inr (Or.inl rfl))
      | some s0 => exact Or.inr (Or.inr (Or.inr (hr (by simp [hfind])))))
    simp only [loop]
    have hi := ih (step I acc r) (TRenderers.WF.tail hwf) (by
      intro p hp hown
      rw [step_activeOverlayId]
      rw [step_find_of_ne I acc r (fun heq => TRenderers.WF.head_ne hwf p hp heq.symm)] at hown
      exact h p (List.mem_cons_of_mem _ hp) hown)
    exact ⟨hi.1.trans hs.1, hi.2.1.trans hs.2.1, hi.2.2.trans hs.2.2⟩

/-- First match wins: the entries before `(w, s)` do not reattach, the entry `(w, s)`
does, and the entries after it change neither the active overlay nor the events. -/
theorem loop_first_match (I : Capabilities SR H Area Key Point)
    (A : LayerRenderer SR H Key) (pre post : List (EWidget × SR)) (w : EWidget) (s : SR) (e : H)
    (hwf : TRenderers.WF (pre ++ (w, s) :: post))
    (hact : A.m_activeOverlay.isSome = true)
    (hown : (TRenderers.find w A.m_renderers).isSome = true)
    (hres : I.FindHandle s A.m_activeOverlayId = some e)
    (hpre : ∀ p ∈ pre, (TRenderers.find p.1 A.m_renderers).isSome = true →
      I.FindHandle p.2 A.m_activeOverlayId = none) :
    (loop I (pre ++ (w, s) :: post) (A, false, [])).1.m_activeOverlay = some e ∧
      (loop I (pre ++ (w, s) :: post) (A, false, [])).2.2 = [Event.OnTapBegin e] := by
  obtain ⟨hwfpre, -, hcross⟩ := List.pairwise_append.1 hwf
  have h1 := loop_no_match I pre (A, false, []) hwfpre hpre
  have hid := loop_activeOverlayId I pre (A, false, [])
  have hne : ∀ r ∈ pre, r.1 ≠ w := by
    intro r hr heq
    have := hcross r hr (w, s) (List.mem_cons_self _ _)
    rw [heq] at this
    exact Nat.lt_irrefl _ this
  have hfw := loop_find_of_forall_ne I pre (A, false, []) hne
  have hs := step_reattach I (loop I pre (A, false, [])) (w, s) (e := e) h1.2.1
    (by rw [h1.1]; exact hact) (by rw [hfw]; exact hown) (by rw [hid]; exact hres)
  have hk := loop_keep I post (step I (loop I pre (A, false, [])) (w, s)) (Or.inl hs.2.1)
  rw [loop_append]
  simp only [loop]
  refine ⟨hk.1.trans hs.1, ?_⟩
  rw [hk.2.2, hs.2.2, h1.2.2]
  rfl

end Merge

/-! ### `LayerRenderer::Merge` -/

/-- C1. Active-overlay loss on Merge fails on the code: the layer renderer `demoPressed`
holds an active overlay with feature id 7 that is a handle of its compass, the incoming
compass of `demoSnapshotLost` resolves feature id 7 to nothing, and after the merge the
active overlay is still the old handle, which no owned shape renderer holds any more. -/
theorem Merge_active_overlay_loss_dangling :
    demoPressed.m_activeOverlay = some demoCompassHandle ∧
    demoPressed.m_activeOverlayId = 7 ∧
    (∃ s0, TRenderers.find EWidget.WIDGET_COMPASS demoPressed.m_renderers = some s0 ∧
      demoCompassHandle ∈ demo.Handles s0) ∧
    (∃ s1, TRenderers.find EWidget.WIDGET_COMPASS demoSnapshotLost.m_renderers = some s1 ∧
      demo.FindHandle s1 7 = none) ∧
    (Merge demo demoPressed demoSnapshotLost).1.m_activeOverlay = some demoCompassHandle ∧
    ¬ Owns demo (Merge demo demoPressed demoSnapshotLost).1 demoCompassHandle ∧
    (Merge demo demoPressed demoSnapshotLost).2.2 = [] := by
  refine ⟨rfl, rfl, ⟨_, rfl, by decide⟩, ⟨_, rfl, by decide⟩, by decide, by decide, by decide⟩

/-- No call of Merge makes a present active overlay absent. -/
theorem Merge.activeOverlay_isSome (I : Capabilities SR H Area Key Point)
    (A B : LayerRenderer SR H Key) (h : A.m_activeOverlay.isSome = true) :
    (Merge I A B).1.m_activeOverlay.isSome = true :=
  Merge.loop_activeOverlay_isSome I B.m_renderers (A, false, []) h

/-- C2, as stated, fails: `demoPressed` holds an active overlay with feature id 7 inside
its compass, the incoming compass of `demoSnapshotBoth` resolves feature id 7 to
`demoCompassHandleNew`, yet after the merge the active overlay is the handle of the
incoming ruler, which comes first in map order, is owned too and also resolves the id;
the tap-begin fired on that ruler handle. -/
theorem Merge_active_overlay_continuity_counterexample :
    demoPressed.m_activeOverlay = some demoCompassHandle ∧
    demoPressed.m_activeOverlayId = 7 ∧
    (∃ s0, TRenderers.find EWidget.WIDGET_COMPASS demoPressed.m_renderers = some s0 ∧
      demoCompassHandle ∈ demo.Handles s0) ∧
    (∃ s1, TRenderers.find EWidget.WIDGET_COMPASS demoSnapshotBoth.m_renderers = some s1 ∧
      demo.FindHandle s1 7 = some demoCompassHandleNew) ∧
    (Merge demo demoPressed demoSnapshotBoth).1.m_activeOverlay ≠ some demoCompassHandleNew ∧
    (Merge demo demoPressed demoSnapshotBoth).2.2 ≠ [Event.OnTapBegin demoCompassHandleNew] := by
  refine ⟨rfl, rfl, ⟨_, rfl, by decide⟩, ⟨_, rfl, by decide⟩, by decide, by decide⟩

/-- C2, amended. Active-overlay continuity on Merge: if A holds an active overlay `h0`
with key `K` inside its shape renderer for kind `W`, B holds for `W` a shape renderer in
which `FindHandle K` finds `e`, and no kind before `W` in the map order of B that A also
owns has an incoming shape renderer resolving `K`, then after `A.Merge(B)` the active
overlay is `e`, the stored key is still `K`, A holds the incoming shape renderer for `W`,
and the only event of the merge is one tap-begin, on `e`. -/
theorem Merge_active_overlay_continuity (I : Capabilities SR H Area Key Point)
    (A B : LayerRenderer SR H Key) (K : Key) (h0 e : H) (W : EWidget) (s0 sW : SR)
    (hact : A.m_activeOverlay = some h0) (hkey : A.m_activeOverlayId = K)
    (hA : TRenderers.find W A.m_renderers = some s0) (_hin : h0 ∈ I.Handles s0)
    (hwf : TRenderers.WF B.m_renderers)
    (hB : TRenderers.find W B.m_renderers = some sW)
    (hres : I.FindHandle sW K = some e)
    (hfirst : ∀ W1 s1, W1.toNat < W.toNat → TRenderers.find W1 B.m_renderers = some s1 →
      (TRenderers.find W1 A.m_renderers).isSome = true → I.FindHandle s1 K = none) :
    (Merge I A B).1.m_activeOverlay = some e ∧
      (Merge I A B).1.m_activeOverlayId = K ∧
      TRenderers.find W (Merge I A B).1.m_renderers = some sW ∧
      (Merge I A B).2.2 = [Event.OnTapBegin e] := by
  obtain ⟨pre, post, hsplit, hpre⟩ := TRenderers.exists_split_of_find B.m_renderers hwf hB
  have hfm := Merge.loop_first_match I A pre post W sW e (hsplit ▸ hwf)
    (by simp [hact]) (by simp [hA]) (by rw [hkey]; exact hres)
    (by
      intro p hp hown
      rw [hkey]
      exact hfirst p.1 p.2 (hpre p hp).1 (hpre p hp).2 hown)
  simp only [Merge]
  refine ⟨?_, ?_, ?_, ?_⟩
  · rw [hsplit]; exact hfm.1
  · rw [Merge.loop_activeOverlayId]; exact hkey
  · exact Merge.loop_find_of_find I B.m_renderers _ hwf hB
  · rw [hsplit]; exact hfm.2

/-- Witness of C2, amended: the pressed compass of `demoPressed` is carried over to the
new compass handle of `demoSnapshotKept`. -/
theorem Merge_active_overlay_continuity_witness :
    (Merge demo demoPressed demoSnapshotKept).1.m_activeOverlay = some demoCompassHandleNew ∧
      (Merge demo demoPressed demoSnapshotKept).1.m_activeOverlayId = 7 ∧
      TRenderers.find EWidget.WIDGET_COMPASS (Merge demo demoPressed demoSnapshotKept).1.m_renderers
        = some { pivot := 0, handles := [demoCompassHandleNew] } ∧
      (Merge demo demoPressed demoSnapshotKept).2.2 = [Event.OnTapBegin demoCompassHandleNew] :=
  Merge_active_overlay_continuity demo demoPressed demoSnapshotKept 7 demoCompassHandle
    demoCompassHandleNew EWidget.WIDGET_COMPASS { pivot := 0, handles := [demoCompassHandle] }
    { pivot := 0, handles := [demoCompassHandleNew] } rfl rfl (by decide) (by decide)
    (by decide) (by decide) (by decide)
    (by
      intro W1 s1 hlt hf _
      cases W1 <;> simp [EWidget.toNat, TRenderers.find, demoSnapshotKept] at hlt hf)

/-- C3. Merge is a true transfer: after `A.Merge(B)`, for every kind `k` that was in the
map of B, the entry of A for `k` is the shape renderer B held for `k` (whether or not A
owned `k` before), and the map of B is empty. -/
theorem Merge_true_transfer (I : Capabilities SR H Area Key Point)
    (A B : LayerRenderer SR H Key) (hwf : TRenderers.WF B.m_renderers) :
    (∀ k s, TRenderers.find k B.m_renderers = some s →
        TRenderers.find k (Merge I A B).1.m_renderers = some s) ∧
      (Merge I A B).2.1.m_renderers = [] := by
  refine ⟨?_, rfl⟩
  intro k s hk
  exact Merge.loop_find_of_find I B.m_renderers _ hwf hk

/-- Witness of C3: merging `demoSnapshotBoth` into `demoPressed` hands over its ruler (a
kind A owned) and leaves the snapshot empty. -/
theorem Merge_true_transfer_witness :
    TRenderers.WF demoSnapshotBoth.m_renderers ∧
      TRenderers.find EWidget.WIDGET_RULER (Merge demo demoPressed demoSnapshotBoth).1.m_renderers
        = some { pivot := 0, handles := [demoRulerHandleNew] } ∧
      (Merge demo demoPressed demoSnapshotBoth).2.1.m_renderers = [] :=
  ⟨by decide,
    (Merge_true_transfer demo demoPressed demoSnapshotBoth (by decide)).1 _ _ (by decide),
    (Merge_true_transfer demo demoPressed demoSnapshotBoth (by decide)).2⟩

/-- C4. Merge preserves unrelated widgets: for every kind `k` in the map of A that is
not in the map of B, after `A.Merge(B)` the entry of A for `k` is the same shape
renderer as before. -/
theorem Merge_preserves_unrelated (I : Capabilities SR H Area Key Point)
    (A B : LayerRenderer SR H Key) (k : EWidget) (s : SR)
    (hA : TRenderers.find k A.m_renderers = some s)
    (hB : TRenderers.find k B.m_renderers = none) :
    TRenderers.find k (Merge I A B).1.m_renderers = some s := by
  simp only [Merge]
  rw [Merge.loop_find_of_forall_ne I B.m_renderers _
    (TRenderers.forall_ne_of_find_eq_none B.m_renderers hB)]
  exact hA

/-- Witness of C4: the copyright widget of `demoPressed` is untouched by a merge that
brings a ruler and a compass. -/
theorem Merge_preserves_unrelated_witness :
    TRenderers.find EWidget.WIDGET_COPYRIGHT demoPressed.m_renderers
        = some { pivot := 0, handles := [] } ∧
      TRenderers.find EWidget.WIDGET_COPYRIGHT demoSnapshotBoth.m_renderers = none ∧
      TRenderers.find EWidget.WIDGET_COPYRIGHT (Merge demo demoPressed demoSnapshotBoth).1.m_renderers
        = some { pivot := 0, handles := [] } :=
  ⟨by decide, by decide,
    Merge_preserves_unrelated demo demoPressed demoSnapshotBoth EWidget.WIDGET_COPYRIGHT
      { pivot := 0, handles := [] } (by decide) (by decide)⟩

/-- C5. Merge reattaches at most once, first match wins: the events of `A.Merge(B)` are
either none or a single tap-begin, on the handle that is the active overlay afterwards;
and when A has an active overlay and `(w, s)` is the first entry of B, in map order, of
a kind A already owns whose shape renderer resolves the stored key of A, to `e`, then
the active overlay after the merge is `e` and the only event is the tap-begin on `e`,
whatever the later entries of B are. -/
theorem Merge_reattaches_at_most_once (I : Capabilities SR H Area Key Point)
    (A B : LayerRenderer SR H Key) :
    ((Merge I A B).2.2 = [] ∨
      ∃ e, (Merge I A B).1.m_activeOverlay = some e ∧
        (Merge I A B).2.2 = [Event.OnTapBegin e]) ∧
    (∀ (pre post : List (EWidget × SR)) (w : EWidget) (s : SR) (e : H),
      TRenderers.WF B.m_renderers →
      B.m_renderers = pre ++ (w, s) :: post →
      A.m_activeOverlay.isSome = true →
      (TRenderers.find w A.m_renderers).isSome = true →
      I.FindHandle s A.m_activeOverlayId = some e →
      (∀ p ∈ pre, (TRenderers.find p.1 A.m_renderers).isSome = true →
        I.FindHandle p.2 A.m_activeOverlayId = none) →
      (Merge I A B).1.m_activeOverlay = some e ∧
        (Merge I A B).2.2 = [Event.OnTapBegin e]) := by
  constructor
  · rcases Merge.loop_events I B.m_renderers (A, false, []) with h | ⟨-, e, he, htr⟩
    · exact Or.inl h
    · exact Or.inr ⟨e, he, by simpa using htr⟩
  · intro pre post w s e hwf hsplit hact hown hres hpre
    simp only [Merge]
    rw [hsplit]
    exact Merge.loop_first_match I A pre post w s e (hsplit ▸ hwf) hact hown hres hpre

/-- Witness of C5: both the ruler and the compass of `demoSnapshotBoth` resolve the
stored key of `demoPressed`; the ruler comes first, its handle becomes the active
overlay and the one tap-begin is fired on it. -/
theorem Merge_reattaches_at_most_once_witness :
    demo.FindHandle { pivot := 0, handles := [demoCompassHandleNew] } demoPressed.m_activeOverlayId
        = some demoCompassHandleNew ∧
      (Merge demo demoPressed demoSnapshotBoth).1.m_activeOverlay = some demoRulerHandleNew ∧
      (Merge demo demoPressed demoSnapshotBoth).2.2 = [Event.OnTapBegin demoRulerHandleNew] :=
  ⟨by decide,
    (Merge_reattaches_at_most_once demo demoPressed demoSnapshotBoth).2 []
      [(EWidget.WIDGET_COMPASS, { pivot := 0, handles := [demoCompassHandleNew] })]
      EWidget.WIDGET_RULER { pivot := 0, handles := [demoRulerHandleNew] } demoRulerHandleNew
      (by decide) rfl (by decide) (by decide) (by decide) (by simp)⟩

/-! ### `LayerRenderer::OnTouchDown` -/

namespace OnTouchDown

/-- The loop on a list whose first hit is the entry `(w, s)`. -/
theorem loop_hit (I : Capabilities SR H Area Key Point) (touchArea : Area)
    (w : EWidget) (s : SR) (h : H) (post : List (EWidget × SR))
    (hs : I.ProcessTapEvent s touchArea = some h) :
    ∀ (pre : List (EWidget × SR)) (self : LayerRenderer SR H Key) (tr : List (Event H)),
      (∀ p ∈ pre, I.ProcessTapEvent p.2 touchArea = none) →
      loop I touchArea (pre ++ (w, s) :: post) self tr =
        (true,
          { self with m_activeOverlay := some h, m_activeOverlayId := I.GetFeatureId h },
          tr ++ pre.map (fun p => Event.ProcessTapEvent p.1) ++
            [Event.ProcessTapEvent w, Event.OnTapBegin h]) := by
  intro pre
  induction pre with
  | nil => intro self tr _; simp [loop, hs]
  | cons q pre ih =>
    intro self tr hpre
    have hq := hpre q (List.mem_cons_self _ _)
    simp only [List.cons_append, loop, hq, List.append_eq]
    rw [ih _ _ (fun p hp => hpre p (List.mem_cons_of_mem _ hp))]
    simp

/-- The loop on a list without any hit. -/
theorem loop_miss (I : Capabilities SR H Area Key Point) (touchArea : Area) :
    ∀ (rs : List (EWidget × SR)) (self : LayerRenderer SR H Key) (tr : List (Event H)),
      (∀ p ∈ rs, I.ProcessTapEvent p.2 touchArea = none) →
      loop I touchArea rs self tr =
        (false,
          { self with m_activeOverlay := if rs.isEmpty then self.m_activeOverlay else none },
          tr ++ rs.map (fun p => Event.ProcessTapEvent p.1)) := by
  intro rs
  induction rs with
  | nil => intro self tr _; simp [loop]
  | cons q rs ih =>
    intro self tr hrs
    have hq := hrs q (List.mem_cons_self _ _)
    simp only [loop, hq]
    rw [ih _ _ (fun p hp => hrs p (List.mem_cons_of_mem _ hp))]
    cases rs <;> simp

/-- A list with a hit splits at its first hit. -/
theorem exists_first_hit (I : Capabilities SR H Area Key Point) (touchArea : Area) :
    ∀ rs : List (EWidget × SR),
      (∃ p ∈ rs, (I.ProcessTapEvent p.2 touchArea).isSome = true) →
      ∃ pre post w s h, rs = pre ++ (w, s) :: post ∧
        (∀ p ∈ pre, I.ProcessTapEvent p.2 touchArea = none) ∧
        I.ProcessTapEvent s touchArea = some h := by
  intro rs
  induction rs with
  | nil => rintro ⟨p, hp, -⟩; simp at hp
  | cons q rs ih =>
    obtain ⟨k1, v1⟩ := q
    rintro ⟨p, hp, hhit⟩
    cases hq : I.ProcessTapEvent v1 touchArea with
    | some h => exact ⟨[], rs, k1, v1, h, rfl, by simp, hq⟩
    | none =>
      rcases List.mem_cons.1 hp with rfl | hp
      · simp [hq] at hhit
      · obtain ⟨pre, post, w, s, h, hsplit, hpre, hs⟩ := ih ⟨p, hp, hhit⟩
        refine ⟨(k1, v1) :: pre, post, w, s, h, by simp [hsplit], ?_, hs⟩
        intro r hr
        rcases List.mem_cons.1 hr with rfl | hr
        · exact hq
        · exact hpre r hr

theorem notifications_hitTests (pre : List (EWidget × SR)) :
    notifications (pre.map (fun p => (Event.ProcessTapEvent p.1 : Event H))) = [] := by
  induction pre with
  | nil => rfl
  | cons q pre ih =>
    simp only [notifications] at ih
    simp [notifications, Event.isNotification, ih]

end OnTouchDown

/-- C6. OnTouchDown on a hit: when at least one owned widget reports a handle for the
area, the map splits at the first such widget `(w, s)` in iteration order, with handle
`h`; OnTouchDown returns true, the active overlay becomes `h`, the stored key becomes the
element key of `h`, the map is unchanged, exactly the widgets up to and including `w`
are hit-tested (none after it), and the only notification is one tap-begin on `h`,
whatever overlay was active before. -/
theorem OnTouchDown_hit (I : Capabilities SR H Area Key Point) (self : LayerRenderer SR H Key)
    (touchArea : Area)
    (hhit : ∃ p ∈ self.m_renderers, (I.ProcessTapEvent p.2 touchArea).isSome = true) :
    ∃ pre post w s h, self.m_renderers = pre ++ (w, s) :: post ∧
      (∀ p ∈ pre, I.ProcessTapEvent p.2 touchArea = none) ∧
      I.ProcessTapEvent s touchArea = some h ∧
      (OnTouchDown I self touchArea).1 = true ∧
      (OnTouchDown I self touchArea).2.1 =
        { self with m_activeOverlay := some h, m_activeOverlayId := I.GetFeatureId h } ∧
      (OnTouchDown I self touchArea).2.2 =
        pre.map (fun p => Event.ProcessTapEvent p.1) ++
          [Event.ProcessTapEvent w, Event.OnTapBegin h] ∧
      notifications (OnTouchDown I self touchArea).2.2 = [Event.OnTapBegin h] := by
  obtain ⟨pre, post, w, s, h, hsplit, hpre, hs⟩ :=
    OnTouchDown.exists_first_hit I touchArea self.m_renderers hhit
  have hl : OnTouchDown I self touchArea = (true,
      { self with m_activeOverlay := some h, m_activeOverlayId := I.GetFeatureId h },
      [] ++ pre.map (fun p => Event.ProcessTapEvent p.1) ++
        [Event.ProcessTapEvent w, Event.OnTapBegin h]) := by
    unfold OnTouchDown
    conv_lhs => rw [hsplit]
    exact OnTouchDown.loop_hit I touchArea w s h post hs pre self [] hpre
  refine ⟨pre, post, w, s, h, hsplit, hpre, hs, ?_, ?_, ?_, ?_⟩
  · rw [hl]
  · rw [hl]
  · rw [hl]; simp
  · rw [hl]
    have := OnTouchDown.notifications_hitTests (H := H) pre
    simp only [notifications] at this
    simp [notifications, List.filter_append, this, Event.isNotification]

/-- Witness of C6: widgets ruler, compass, copyright with only the compass reporting a
hit; the ruler and the compass are hit-tested, the copyright is not, the compass handle
becomes the active overlay and receives the one tap-begin. -/
theorem OnTouchDown_hit_witness :
    OnTouchDown demo demoLayer 1 =
        (true, demoPressed,
          [Event.ProcessTapEvent EWidget.WIDGET_RULER, Event.ProcessTapEvent EWidget.WIDGET_COMPASS,
            Event.OnTapBegin demoCompassHandle]) ∧
      ∃ pre post w s h, demoLayer.m_renderers = pre ++ (w, s) :: post ∧
        (∀ p ∈ pre, demo.ProcessTapEvent p.2 1 = none) ∧
        demo.ProcessTapEvent s 1 = some h ∧
        (OnTouchDown demo demoLayer 1).1 = true ∧
        (OnTouchDown demo demoLayer 1).2.1 =
          { demoLayer with m_activeOverlay := some h, m_activeOverlayId := demo.GetFeatureId h } ∧
        (OnTouchDown demo demoLayer 1).2.2 =
          pre.map (fun p => Event.ProcessTapEvent p.1) ++
            [Event.ProcessTapEvent w, Event.OnTapBegin h] ∧
        notifications (OnTouchDown demo demoLayer 1).2.2 = [Event.OnTapBegin h] :=
  ⟨by decide, OnTouchDown_hit demo demoLayer 1 (by decide)⟩

/-- C7, as stated, fails: `demoDestroyed` has an empty map and still holds an active
overlay; no owned widget reports a hit, OnTouchDown returns false, and the active overlay
is still present afterwards. -/
theorem OnTouchDown_miss_counterexample :
    demoDestroyed.m_renderers = [] ∧
    (∀ p ∈ demoDestroyed.m_renderers, demo.ProcessTapEvent p.2 1 = none) ∧
    (OnTouchDown demo demoDestroyed 1).1 = false ∧
    (OnTouchDown demo demoDestroyed 1).2.1.m_activeOverlay ≠ none := by
  refine ⟨rfl, by decide, by decide, by decide⟩

/-- C7, amended. OnTouchDown on a miss: when no owned widget reports a handle for the
area, OnTouchDown returns false, fires no notification (its events are the hit-tests of
all owned widgets, in order) and leaves the map and the stored key as they were;
afterwards the active overlay is absent if the map is non-empty or no overlay was active
before the call, and on the empty map the whole state is unchanged. -/
theorem OnTouchDown_miss (I : Capabilities SR H Area Key Point) (self : LayerRenderer SR H Key)
    (touchArea : Area)
    (hmiss : ∀ p ∈ self.m_renderers, I.ProcessTapEvent p.2 touchArea = none) :
    (OnTouchDown I self touchArea).1 = false ∧
      notifications (OnTouchDown I self touchArea).2.2 = [] ∧
      (OnTouchDown I self touchArea).2.2 =
        self.m_renderers.map (fun p => Event.ProcessTapEvent p.1) ∧
      (OnTouchDown I self touchArea).2.1.m_renderers = self.m_renderers ∧
      (OnTouchDown I self touchArea).2.1.m_activeOverlayId = self.m_activeOverlayId ∧
      (self.m_renderers ≠ [] ∨ self.m_activeOverlay = none →
        (OnTouchDown I self touchArea).2.1.m_activeOverlay = none) ∧
      (self.m_renderers = [] → (OnTouchDown I self touchArea).2.1 = self) := by
  have hl := OnTouchDown.loop_miss I touchArea self.m_renderers self [] hmiss
  simp only [OnTouchDown]
  rw [hl]
  refine ⟨rfl, ?_, by simp, rfl, rfl, ?_, ?_⟩
  · simpa using OnTouchDown.notifications_hitTests (H := H) self.m_renderers
  · intro h
    rcases h with h | h
    · cases hm : self.m_renderers with
      | nil => exact absurd hm h
      | cons q rs => simp
    · cases hm : self.m_renderers <;> simp [h]
  · intro h
    obtain ⟨m, a, i⟩ := self
    simp only at h
    subst h
    rfl

/-- Witness of C7, amended: touch area 5 hits no widget of `demoPressed`; the three
widgets are hit-tested, nothing fires and the active overlay is cleared, the stored key
is kept. -/
theorem OnTouchDown_miss_witness :
    (∀ p ∈ demoPressed.m_renderers, demo.ProcessTapEvent p.2 5 = none) ∧
      (OnTouchDown demo demoPressed 5).1 = false ∧
      notifications (OnTouchDown demo demoPressed 5).2.2 = [] ∧
      (OnTouchDown demo demoPressed 5).2.1.m_activeOverlay = none ∧
      (OnTouchDown demo demoPressed 5).2.1.m_activeOverlayId = 7 :=
  ⟨by decide,
    (OnTouchDown_miss demo demoPressed 5 (by decide)).1,
    (OnTouchDown_miss demo demoPressed 5 (by decide)).2.1,
    (OnTouchDown_miss demo demoPressed 5 (by decide)).2.2.2.2.2.1 (Or.inl (by decide)),
    (OnTouchDown_miss demo demoPressed 5 (by decide)).2.2.2.2.1⟩

/-! ### `LayerRenderer::OnTouchUp` and `LayerRenderer::OnTouchCancel` -/

/-- C8. Tap completion in OnTouchUp: with an active overlay `h`, OnTouchUp fires tap on
`h` once if `h.IsTapped(area)` and not at all otherwise, then tap-end on `h` once, and
afterwards the active overlay is absent, the stored key is the default key and the map
is as before; with no active overlay, OnTouchUp fires nothing and leaves the state
unchanged. -/
theorem OnTouchUp_tap_completion (I : Capabilities SR H Area Key Point)
    (self : LayerRenderer SR H Key) (touchArea : Area) :
    (∀ h, self.m_activeOverlay = some h →
      (I.IsTapped h touchArea = true →
        (OnTouchUp I self touchArea).2 = [Event.OnTap h, Event.OnTapEnd h]) ∧
      (I.IsTapped h touchArea = false →
        (OnTouchUp I self touchArea).2 = [Event.OnTapEnd h]) ∧
      (OnTouchUp I self touchArea).1.m_activeOverlay = none ∧
      (OnTouchUp I self touchArea).1.m_activeOverlayId = I.FeatureID_default ∧
      (OnTouchUp I self touchArea).1.m_renderers = self.m_renderers) ∧
    (self.m_activeOverlay = none → OnTouchUp I self touchArea = (self, [])) := by
  constructor
  · intro h hact
    refine ⟨?_, ?_, ?_, ?_, ?_⟩
    · intro ht; simp [OnTouchUp, hact, ht]
    · intro ht; simp [OnTouchUp, hact, ht]
    · simp [OnTouchUp, hact]
    · simp [OnTouchUp, hact]
    · simp [OnTouchUp, hact]
  · intro hact
    simp only [OnTouchUp, hact]

/-- Witness of C8: OnTouchDown with a hit on the compass of `demoLayer`, followed by
OnTouchUp with an area that still hits the compass handle, gives the notifications
tap-begin, tap, tap-end and clears the active state. -/
theorem OnTouchUp_tap_completion_witness :
    (OnTouchDown demo demoLayer 1).2.1.m_activeOverlay = some demoCompassHandle ∧
      demo.IsTapped demoCompassHandle 1 = true ∧
      (OnTouchUp demo (OnTouchDown demo demoLayer 1).2.1 1).2
        = [Event.OnTap demoCompassHandle, Event.OnTapEnd demoCompassHandle] ∧
      notifications ((OnTouchDown demo demoLayer 1).2.2 ++
          (OnTouchUp demo (OnTouchDown demo demoLayer 1).2.1 1).2)
        = [Event.OnTapBegin demoCompassHandle, Event.OnTap demoCompassHandle,
            Event.OnTapEnd demoCompassHandle] ∧
      (OnTouchUp demo (OnTouchDown demo demoLayer 1).2.1 1).1.m_activeOverlay = none ∧
      (OnTouchUp demo (OnTouchDown demo demoLayer 1).2.1 1).1.m_activeOverlayId = 0 :=
  ⟨by decide, by decide,
    ((OnTouchUp_tap_completion demo (OnTouchDown demo demoLayer 1).2.1 1).1
      demoCompassHandle (by decide)).1 (by decide),
    by decide,
    ((OnTouchUp_tap_completion demo (OnTouchDown demo demoLayer 1).2.1 1).1
      demoCompassHandle (by decide)).2.2.1,
    ((OnTouchUp_tap_completion demo (OnTouchDown demo demoLayer 1).2.1 1).1
      demoCompassHandle (by decide)).2.2.2.1⟩

/-- C9. OnTouchCancel never taps: OnTouchCancel fires no tap; with an active overlay `h`
it fires exactly tap-end on `h` and leaves the active overlay absent and the key default,
otherwise it changes nothing and fires nothing; its resulting state is the one OnTouchUp
produces from the same state, its events are those of OnTouchUp without the tap, and
neither its state nor its events depend on the area. -/
theorem OnTouchCancel_never_taps (I : Capabilities SR H Area Key Point)
    (self : LayerRenderer SR H Key) (touchArea otherArea : Area) :
    (∀ h, Event.OnTap h ∉ (OnTouchCancel I self touchArea).2) ∧
    (∀ h, self.m_activeOverlay = some h →
      OnTouchCancel I self touchArea =
        ({ self with m_activeOverlay := none, m_activeOverlayId := I.FeatureID_default },
          [Event.OnTapEnd h])) ∧
    (self.m_activeOverlay = none → OnTouchCancel I self touchArea = (self, [])) ∧
    (OnTouchCancel I self touchArea).1 = (OnTouchUp I self touchArea).1 ∧
    (OnTouchCancel I self touchArea).2 =
      (OnTouchUp I self touchArea).2.filter (fun ev => !ev.isOnTap) ∧
    OnTouchCancel I self touchArea = OnTouchCancel I self otherArea ∧
    (OnTouchCancel I self touchArea).1 = (OnTouchUp I self otherArea).1 := by
  cases hact : self.m_activeOverlay with
  | none => simp [OnTouchCancel, OnTouchUp, hact]
  | some h0 =>
    refine ⟨?_, ?_, ?_, ?_, ?_, ?_, ?_⟩
    · intro h; simp [OnTouchCancel, hact]
    · intro h hh
      cases hh
      simp [OnTouchCancel, hact]
    · intro hh; cases hh
    · simp [OnTouchCancel, OnTouchUp, hact]
    · cases ht : I.IsTapped h0 touchArea <;>
        simp [OnTouchCancel, OnTouchUp, hact, ht, Event.isOnTap]
    · simp [OnTouchCancel, hact]
    · simp [OnTouchCancel, OnTouchUp, hact]

/-- Witness of C9: cancelling the pressed compass of `demoPressed` fires only tap-end
and clears the active state, for an area that hits the handle as for one that does not. -/
theorem OnTouchCancel_never_taps_witness :
    demoPressed.m_activeOverlay = some demoCompassHandle ∧
      OnTouchCancel demo demoPressed 1 =
        ({ demoPressed with m_activeOverlay := none, m_activeOverlayId := 0 },
          [Event.OnTapEnd demoCompassHandle]) ∧
      OnTouchCancel demo demoPressed 1 = OnTouchCancel demo demoPressed 5 ∧
      (OnTouchCancel demo demoPressed 1).1 = (OnTouchUp demo demoPressed 1).1 :=
  ⟨rfl,
    (OnTouchCancel_never_taps demo demoPressed 1 5).2.1 demoCompassHandle rfl,
    (OnTouchCancel_never_taps demo demoPressed 1 5).2.2.2.2.2.1,
    (OnTouchCancel_never_taps demo demoPressed 1 5).2.2.2.1⟩

/-! ### Lifetime of the active overlay -/

/-- The concrete instance behaves as a shape renderer is relied on to behave. -/
theorem demo_lawful : demo.Lawful where
  findHandle_mem := by
    intro s k h hf
    exact List.mem_of_find?_eq_some hf
  findHandle_key := by
    intro s k h hf
    have := List.find?_some hf
    simpa using this
  processTapEvent_mem := by
    intro s a h hf
    exact List.mem_of_find?_eq_some hf
  setPivot_handles := by
    intro s p
    rfl

theorem demoLayer_reachable : Reachable demo demoLayer := by
  have h0 : Reachable demo (LayerRenderer.empty demo) := Reachable.empty
  have h1 := Reachable.addShapeRenderer EWidget.WIDGET_COMPASS
    (some { pivot := 0, handles := [demoCompassHandle] }) h0 rfl
  have h2 := Reachable.addShapeRenderer EWidget.WIDGET_COPYRIGHT
    (some { pivot := 0, handles := [] }) h1 rfl
  exact Reachable.addShapeRenderer EWidget.WIDGET_RULER
    (some { pivot := 0, handles := [] }) h2 rfl

theorem demoPressed_reachable : Reachable demo demoPressed := by
  have h := Reachable.onTouchDown (I := demo) 1 demoLayer_reachable
  have he : (OnTouchDown demo demoLayer 1).2.1 = demoPressed := by decide
  rw [he] at h
  exact h

theorem demoSnapshotLost_reachable : Reachable demo demoSnapshotLost :=
  Reachable.addShapeRenderer EWidget.WIDGET_COMPASS
    (some { pivot := 0, handles := [] }) Reachable.empty rfl

/-- C10 fails on the code: the state reached by adding a ruler, a compass and a copyright
widget, pressing the compass and merging a rebuilt snapshot whose compass no longer holds
an element with the pressed key has an active overlay that no owned shape renderer
holds; so has the state reached by pressing the compass and destroying the renderers. -/
theorem active_overlay_outlives_shape_renderer :
    (Reachable demo (Merge demo demoPressed demoSnapshotLost).1 ∧
      (Merge demo demoPressed demoSnapshotLost).1.m_activeOverlay = some demoCompassHandle ∧
      ¬ Owns demo (Merge demo demoPressed demoSnapshotLost).1 demoCompassHandle) ∧
    (Reachable demo (DestroyRenderers demoPressed) ∧
      (DestroyRenderers demoPressed).m_activeOverlay = some demoCompassHandle ∧
      ¬ Owns demo (DestroyRenderers demoPressed) demoCompassHandle) :=
  ⟨⟨Reachable.merge demoPressed_reachable demoSnapshotLost_reachable, by decide, by decide⟩,
    ⟨Reachable.destroyRenderers demoPressed_reachable, by decide, by decide⟩⟩

/-! ### `LayerRenderer::Render` -/

namespace TRenderers

theorem WF.nodup_keys : ∀ m : TRenderers SR, WF m → (m.map Prod.fst).Nodup := by
  intro m
  induction m with
  | nil => intro _; exact List.nodup_nil
  | cons p m ih =>
    intro hwf
    rw [List.map_cons, List.nodup_cons]
    refine ⟨?_, ih (WF.tail hwf)⟩
    intro hmem
    obtain ⟨q, hq, heq⟩ := List.mem_map.1 hmem
    exact WF.head_ne hwf q hq heq

theorem find_isSome_iff_mem_keys {k : EWidget} :
    ∀ m : TRenderers SR, (find k m).isSome = true ↔ k ∈ m.map Prod.fst := by
  intro m
  induction m with
  | nil => simp [find]
  | cons p m ih =>
    obtain ⟨k1, v1⟩ := p
    by_cases hk : k1 = k
    · simp [find, hk]
    · have hk2 : ¬ k = k1 := fun h => hk h.symm
      simp only [find, hk, if_false, ih, List.map_cons, List.mem_cons, hk2, false_or]

end TRenderers

namespace Render

/-- The draws of the loop: the owned kinds in map order, without compass and ruler when
routing is active, each against the given screen. -/
theorem loop_eq {Screen : Type} (routingActive : Bool) (screen : Screen) :
    ∀ m : List (EWidget × SR),
      loop routingActive screen m =
        ((m.map Prod.fst).filter (fun w => !(routingActive &&
            (w == EWidget.WIDGET_COMPASS || w == EWidget.WIDGET_RULER)))).map
          (fun w => RenderEvent.Render w screen) := by
  intro m
  induction m with
  | nil => rfl
  | cons r rs ih =>
    by_cases hc : (routingActive &&
        (r.1 == EWidget.WIDGET_COMPASS || r.1 == EWidget.WIDGET_RULER)) = true
    · simp only [loop, hc, if_true, ih, List.map_cons, List.filter_cons]
      simp
    · simp only [loop, hc, ih, List.map_cons, List.filter_cons]
      simp

theorem drawn_append {Screen : Type} :
    ∀ xs ys : List (RenderEvent Screen), drawn (xs ++ ys) = drawn xs ++ drawn ys := by
  intro xs
  induction xs with
  | nil => intro ys; rfl
  | cons x xs ih =>
    intro ys
    cases x <;> simp [drawn, ih]

theorem drawn_map {Screen : Type} (screen : Screen) :
    ∀ ws : List EWidget, drawn (ws.map (fun w => RenderEvent.Render w screen)) = ws := by
  intro ws
  induction ws with
  | nil => rfl
  | cons w ws ih => simp [drawn, ih]

/-- The kinds drawn by one call of `Render`. -/
theorem drawn_eq {Screen : Type} (self : LayerRenderer SR H Key) (routingActive : Bool)
    (screen : Screen) :
    drawn (Render self routingActive screen).2 =
      (self.m_renderers.map Prod.fst).filter (fun w => !(routingActive &&
        (w == EWidget.WIDGET_COMPASS || w == EWidget.WIDGET_RULER))) := by
  simp only [Render, drawn_append, loop_eq, drawn_map]
  split <;> simp [drawn]

end Render

/-- C11. Routing suppression in Render: with `routingActive = false` the kinds drawn are
the owned kinds, in map order; with `routingActive = true` they are the owned kinds that
are neither compass nor ruler; in a well-formed map this is one draw for every owned
kind that is not suppressed and none for any other kind, so never a draw of compass or
ruler under routing; in both cases the data members are unchanged. -/
theorem Render_routing_suppression {Screen : Type} (self : LayerRenderer SR H Key)
    (screen : Screen) :
    drawn (Render self false screen).2 = self.m_renderers.map Prod.fst ∧
    drawn (Render self true screen).2 =
      (self.m_renderers.map Prod.fst).filter
        (fun w => !(w == EWidget.WIDGET_COMPASS || w == EWidget.WIDGET_RULER)) ∧
    (TRenderers.WF self.m_renderers → ∀ k : EWidget,
      (drawn (Render self false screen).2).count k = (if HasWidget self k then 1 else 0) ∧
      (drawn (Render self true screen).2).count k =
        (if HasWidget self k &&
            !(k == EWidget.WIDGET_COMPASS || k == EWidget.WIDGET_RULER) then 1 else 0)) ∧
    (Render self true screen).1 = self ∧ (Render self false screen).1 = self := by
  have hf : drawn (Render self false screen).2 = self.m_renderers.map Prod.fst := by
    rw [Render.drawn_eq]; simp
  have ht : drawn (Render self true screen).2 =
      (self.m_renderers.map Prod.fst).filter
        (fun w => !(w == EWidget.WIDGET_COMPASS || w == EWidget.WIDGET_RULER)) := by
    rw [Render.drawn_eq]; simp
  refine ⟨hf, ht, ?_, rfl, rfl⟩
  intro hwf k
  have hnd := TRenderers.WF.nodup_keys self.m_renderers hwf
  have hmem := TRenderers.find_isSome_iff_mem_keys (k := k) self.m_renderers
  have hcount : (self.m_renderers.map Prod.fst).count k = if HasWidget self k then 1 else 0 := by
    by_cases hk : k ∈ self.m_renderers.map Prod.fst
    · rw [List.count_eq_one_of_mem hnd hk, if_pos (by simpa [HasWidget] using hmem.2 hk)]
    · rw [List.count_eq_zero_of_not_mem hk]
      have : HasWidget self k = false := by
        cases hh : HasWidget self k
        · rfl
        · exact absurd (hmem.1 (by simpa [HasWidget] using hh)) hk
      simp [this]
  refine ⟨by rw [hf, hcount], ?_⟩
  rw [ht]
  by_cases hp : (!(k == EWidget.WIDGET_COMPASS || k == EWidget.WIDGET_RULER)) = true
  · have hcf := List.count_filter
      (p := fun w => !(w == EWidget.WIDGET_COMPASS || w == EWidget.WIDGET_RULER))
      (a := k) (l := self.m_renderers.map Prod.fst) hp
    rw [hcf, hcount]
    simp only [Bool.not_eq_true'] at hp
    simp [hp]
  · have hnot : k ∉ (self.m_renderers.map Prod.fst).filter
        (fun w => !(w == EWidget.WIDGET_COMPASS || w == EWidget.WIDGET_RULER)) := by
      intro hin
      exact hp (List.mem_filter.1 hin).2
    rw [List.count_eq_zero_of_not_mem hnot]
    simp only [Bool.not_eq_true] at hp
    simp [hp]

/-- Witness of C11: `demoLayer` owns ruler, compass and copyright; under routing only
the copyright is drawn, once, and without routing each of the three is drawn once. -/
theorem Render_routing_suppression_witness :
    TRenderers.WF demoLayer.m_renderers ∧
      (drawn (Render demoLayer true (0 : Nat)).2).count EWidget.WIDGET_COPYRIGHT = 1 ∧
      (drawn (Render demoLayer true (0 : Nat)).2).count EWidget.WIDGET_COMPASS = 0 ∧
      (drawn (Render demoLayer true (0 : Nat)).2).count EWidget.WIDGET_RULER = 0 ∧
      (drawn (Render demoLayer false (0 : Nat)).2).count EWidget.WIDGET_COMPASS = 1 ∧
      drawn (Render demoLayer true (0 : Nat)).2 = [EWidget.WIDGET_COPYRIGHT] :=
  ⟨by decide,
    ((Render_routing_suppression demoLayer (0 : Nat)).2.2.1 (by decide)
      EWidget.WIDGET_COPYRIGHT).2,
    ((Render_routing_suppression demoLayer (0 : Nat)).2.2.1 (by decide)
      EWidget.WIDGET_COMPASS).2,
    ((Render_routing_suppression demoLayer (0 : Nat)).2.2.1 (by decide)
      EWidget.WIDGET_RULER).2,
    ((Render_routing_suppression demoLayer (0 : Nat)).2.2.1 (by decide)
      EWidget.WIDGET_COMPASS).1,
    by decide⟩

/-- C16. Ruler refresh once per frame: when the map owns a ruler, the calls of one
`Render` are the reset of the dirty-text flag, then the update of the ruler helper from
the screen, then only widget draws; when it owns none, the calls are only widget draws;
this for either value of `routingActive`, so also when routing suppresses the draw of
the ruler itself. -/
theorem Render_ruler_refresh {Screen : Type} (self : LayerRenderer SR H Key)
    (routingActive : Bool) (screen : Screen) :
    (HasWidget self EWidget.WIDGET_RULER = true →
      (Render self routingActive screen).2 =
        RenderEvent.ResetTextDirtyFlag :: RenderEvent.RulerHelperUpdate screen ::
          (drawn (Render self routingActive screen).2).map
            (fun w => RenderEvent.Render w screen)) ∧
    (HasWidget self EWidget.WIDGET_RULER = false →
      (Render self routingActive screen).2 =
        (drawn (Render self routingActive screen).2).map
          (fun w => RenderEvent.Render w screen)) := by
  constructor
  · intro h
    rw [Render.drawn_eq]
    simp [Render, h, Render.loop_eq]
  · intro h
    rw [Render.drawn_eq]
    simp [Render, h, Render.loop_eq]

/-- Witness of C16: `demoLayer` owns a ruler; under routing the ruler is not drawn, yet
the ruler helper is reset and updated once, before the only draw. -/
theorem Render_ruler_refresh_witness :
    HasWidget demoLayer EWidget.WIDGET_RULER = true ∧
      (Render demoLayer true (0 : Nat)).2 =
        [RenderEvent.ResetTextDirtyFlag, RenderEvent.RulerHelperUpdate 0,
          RenderEvent.Render EWidget.WIDGET_COPYRIGHT 0] ∧
      (Render demoLayer true (0 : Nat)).2 =
        RenderEvent.ResetTextDirtyFlag :: RenderEvent.RulerHelperUpdate 0 ::
          (drawn (Render demoLayer true (0 : Nat)).2).map
            (fun w => RenderEvent.Render w 0) :=
  ⟨by decide, by decide,
    (Render_ruler_refresh demoLayer true (0 : Nat)).1 (by decide)⟩

/-! ### `LayerRenderer::AddShapeRenderer` -/

namespace TRenderers

theorem insert_snd_of_find_none {k : EWidget} (v : SR) :
    ∀ m : TRenderers SR, find k m = none → (insert k v m).2 = true := by
  intro m
  induction m with
  | nil => intro _; rfl
  | cons p m ih =>
    obtain ⟨k1, v1⟩ := p
    intro h
    by_cases hk : k1 = k
    · simp [find, hk] at h
    · simp [find, hk] at h
      by_cases hlt : k.toNat < k1.toNat
      · simp [insert, hlt]
      · simp [insert, hlt, hk, ih h]

/-- On a well-formed map, `insert` of a key that is present changes nothing and reports
`false`. -/
theorem insert_of_find_isSome {k : EWidget} (v : SR) :
    ∀ m : TRenderers SR, WF m → (find k m).isSome = true → insert k v m = (m, false) := by
  intro m
  induction m with
  | nil => intro _ h; simp [find] at h
  | cons p m ih =>
    obtain ⟨k1, v1⟩ := p
    intro hwf h
    by_cases hk : k1 = k
    · subst hk
      simp [insert]
    · simp only [find, hk, if_false] at h
      have hmem := (find_isSome_iff_mem_keys m).1 h
      obtain ⟨q, hq, hqk⟩ := List.mem_map.1 hmem
      have hlt : k1.toNat < k.toNat := by
        have := (List.pairwise_cons.1 hwf).1 q hq
        rw [hqk] at this
        exact this
      have hnlt : ¬ k.toNat < k1.toNat := Nat.lt_asymm hlt
      simp [insert, hnlt, hk, ih (WF.tail hwf) h]

theorem mem_insert {k : EWidget} {v : SR} {q : EWidget × SR} :
    ∀ m : TRenderers SR, q ∈ (insert k v m).1 → q = (k, v) ∨ q ∈ m := by
  intro m
  induction m with
  | nil => intro h; simpa [insert] using h
  | cons p m ih =>
    obtain ⟨k1, v1⟩ := p
    intro h
    by_cases hlt : k.toNat < k1.toNat
    · simp only [insert, hlt, if_true, List.mem_cons] at h
      rcases h with h | h | h
      · exact Or.inl h
      · exact Or.inr (List.mem_cons.2 (Or.inl h))
      · exact Or.inr (List.mem_cons_of_mem _ h)
    · by_cases hk : k1 = k
      · subst hk
        simp only [insert, Nat.lt_irrefl, if_false, if_true] at h
        exact Or.inr h
      · simp only [insert, hlt, hk, if_false, List.mem_cons] at h
        rcases h with h | h
        · exact Or.inr (List.mem_cons.2 (Or.inl h))
        · rcases ih h with h | h
          · exact Or.inl h
          · exact Or.inr (List.mem_cons_of_mem _ h)

/-- The function `insert` keeps the keys strictly increasing. -/
theorem insert_WF (k : EWidget) (v : SR) :
    ∀ m : TRenderers SR, WF m → WF (insert k v m).1 := by
  intro m
  induction m with
  | nil => intro _; simp [insert, WF]
  | cons p m ih =>
    obtain ⟨k1, v1⟩ := p
    intro hwf
    by_cases hlt : k.toNat < k1.toNat
    · simp only [insert, hlt, if_true]
      refine List.pairwise_cons.2 ⟨?_, hwf⟩
      intro q hq
      rcases List.mem_cons.1 hq with rfl | hq
      · exact hlt
      · exact Nat.lt_trans hlt ((List.pairwise_cons.1 hwf).1 q hq)
    · by_cases hk : k1 = k
      · subst hk
        simp only [insert, Nat.lt_irrefl, if_false, if_true]
        exact hwf
      · simp only [insert, hlt, hk, if_false]
        refine List.pairwise_cons.2 ⟨?_, ih (WF.tail hwf)⟩
        intro q hq
        rcases mem_insert m hq with rfl | hq
        · have hne : k1.toNat ≠ k.toNat := fun h => hk (toNat_injective h)
          exact Nat.lt_of_le_of_ne (Nat.le_of_not_lt hlt) hne
        · exact (List.pairwise_cons.1 hwf).1 q hq

/-- In a list with pairwise distinct keys, `find` returns exactly the listed entries. -/
theorem find_eq_some_iff_mem {k : EWidget} {v : SR} :
    ∀ m : TRenderers SR, (m.map Prod.fst).Nodup → (find k m = some v ↔ (k, v) ∈ m) := by
  intro m
  induction m with
  | nil => intro _; simp [find]
  | cons p m ih =>
    obtain ⟨k1, v1⟩ := p
    intro hnd
    rw [List.map_cons, List.nodup_cons] at hnd
    by_cases hk : k1 = k
    · subst hk
      constructor
      · intro h
        simp [find] at h
        simp [h]
      · intro h
        rcases List.mem_cons.1 h with h | h
        · simp [find, (Prod.mk.inj h).2]
        · exact absurd (List.mem_map.2 ⟨(k1, v), h, rfl⟩) hnd.1
    · have hne : ¬ (k, v) = (k1, v1) := fun h => hk (Prod.mk.inj h).1.symm
      simp only [find, hk, if_false, List.mem_cons, hne, false_or]
      exact ih hnd.2

end TRenderers

/-- A sequence of calls with distinct kinds, none owned yet, never aborts; afterwards the
entry of a kind is the shape passed for it if the kind is in the sequence, and the entry
it had before otherwise. -/
theorem AddShapeRenderers_spec :
    ∀ (calls : List (EWidget × SR)) (st0 : LayerRenderer SR H Key),
      (calls.map Prod.fst).Nodup →
      (∀ c ∈ calls, TRenderers.find c.1 st0.m_renderers = none) →
      ∃ st, AddShapeRenderers st0 calls = some st ∧
        st.m_activeOverlay = st0.m_activeOverlay ∧
        st.m_activeOverlayId = st0.m_activeOverlayId ∧
        (∀ k, TRenderers.find k st.m_renderers =
          (TRenderers.find k calls).orElse (fun _ => TRenderers.find k st0.m_renderers)) ∧
        (TRenderers.WF st0.m_renderers → TRenderers.WF st.m_renderers) := by
  intro calls
  induction calls with
  | nil =>
    intro st0 _ _
    exact ⟨st0, rfl, rfl, rfl, by intro k; simp [TRenderers.find], id⟩
  | cons c cs ih =>
    obtain ⟨k1, v1⟩ := c
    intro st0 hnd hfree
    rw [List.map_cons, List.nodup_cons] at hnd
    have hnone := hfree (k1, v1) (List.mem_cons_self _ _)
    have hflag := TRenderers.insert_snd_of_find_none v1 st0.m_renderers hnone
    have hstep : AddShapeRenderer st0 k1 (some v1) =
        some { st0 with m_renderers := (TRenderers.insert k1 v1 st0.m_renderers).1 } := by
      simp [AddShapeRenderer, VERIFY, hflag]
    have hne : ∀ c ∈ cs, k1 ≠ c.1 := by
      intro c hc heq
      exact hnd.1 (heq ▸ List.mem_map.2 ⟨c, hc, rfl⟩)
    obtain ⟨st, hst, ha, hi, hfind, hwf⟩ :=
      ih { st0 with m_renderers := (TRenderers.insert k1 v1 st0.m_renderers).1 } hnd.2 (by
        intro c hc
        show TRenderers.find c.1 (TRenderers.insert k1 v1 st0.m_renderers).1 = none
        rw [TRenderers.find_insert_of_ne (hne c hc)]
        exact hfree c (List.mem_cons_of_mem _ hc))
    refine ⟨st, by simp only [AddShapeRenderers, hstep, hst], ha, hi, ?_, ?_⟩
    · intro k
      rw [hfind k]
      by_cases hk : k1 = k
      · subst hk
        have hcs : TRenderers.find k1 cs = none :=
          TRenderers.find_eq_none_of_forall_ne cs (fun c hc => (hne c hc).symm)
        simp [TRenderers.find, hcs, TRenderers.find_insert_self k1 v1 _ hnone]
      · simp [TRenderers.find, hk, TRenderers.find_insert_of_ne hk]
    · intro h0
      exact hwf (TRenderers.insert_WF k1 v1 _ h0)

/-- C12. Uniqueness and abort in AddShapeRenderer: a sequence of calls with non-null
shapes and pairwise distinct kinds, applied to an empty layer renderer, never aborts, and
the resulting map is well formed and holds exactly the entries of the sequence, each kind
with the shape passed for it; and on a layer renderer that already owns kind `k`, a call
for `k` with a non-null shape aborts. -/
theorem AddShapeRenderer_uniqueness (I : Capabilities SR H Area Key Point) :
    (∀ calls : List (EWidget × SR), (calls.map Prod.fst).Nodup →
      ∃ st, AddShapeRenderers (LayerRenderer.empty I) calls = some st ∧
        TRenderers.WF st.m_renderers ∧
        (∀ k s, TRenderers.find k st.m_renderers = some s ↔ (k, s) ∈ calls)) ∧
    (∀ (self : LayerRenderer SR H Key) (k : EWidget) (s : SR),
      TRenderers.WF self.m_renderers → HasWidget self k = true →
      AddShapeRenderer self k (some s) = none) := by
  constructor
  · intro calls hnd
    obtain ⟨st, hst, -, -, hfind, hwf⟩ :=
      AddShapeRenderers_spec calls (LayerRenderer.empty I) hnd
        (by intro c _; rfl)
    refine ⟨st, hst, hwf (by simp [LayerRenderer.empty, TRenderers.WF]), ?_⟩
    intro k s
    rw [hfind k, ← TRenderers.find_eq_some_iff_mem calls hnd]
    cases TRenderers.find k calls <;> simp [LayerRenderer.empty, TRenderers.find]
  · intro self k s hwf hown
    simp [AddShapeRenderer, VERIFY,
      TRenderers.insert_of_find_isSome s self.m_renderers hwf (by simpa [HasWidget] using hown)]

/-- Witness of C12: adding compass, copyright and ruler to an empty layer renderer gives
`demoLayer`, and adding a second compass to `demoLayer` aborts. -/
theorem AddShapeRenderer_uniqueness_witness :
    AddShapeRenderers (LayerRenderer.empty demo)
        [(EWidget.WIDGET_COMPASS, { pivot := 0, handles := [demoCompassHandle] }),
         (EWidget.WIDGET_COPYRIGHT, { pivot := 0, handles := [] }),
         (EWidget.WIDGET_RULER, { pivot := 0, handles := [] })] = some demoLayer ∧
      TRenderers.WF demoLayer.m_renderers ∧ HasWidget demoLayer EWidget.WIDGET_COMPASS = true ∧
      AddShapeRenderer demoLayer EWidget.WIDGET_COMPASS
        (some { pivot := 0, handles := [demoCompassHandleNew] }) = none :=
  ⟨by decide, by decide, by decide,
    (AddShapeRenderer_uniqueness demo).2 demoLayer EWidget.WIDGET_COMPASS
      { pivot := 0, handles := [demoCompassHandleNew] } (by decide) (by decide)⟩

/-- C13. Null shape is dropped: for every state and every kind, owned or not,
`AddShapeRenderer(k, null)` does not abort and returns the state as it was, so the map
and the active-overlay state are unchanged. -/
theorem AddShapeRenderer_null_dropped (self : LayerRenderer SR H Key) (k : EWidget) :
    AddShapeRenderer self k none = some self := rfl

/-! ### `LayerRenderer::SetLayout` -/

namespace SetLayout

theorem assign_keys (k : EWidget) (v : SR) :
    ∀ m : TRenderers SR, (TRenderers.assign k v m).map Prod.fst = m.map Prod.fst := by
  intro m
  induction m with
  | nil => rfl
  | cons p m ih =>
    obtain ⟨k1, v1⟩ := p
    by_cases hk : k1 = k
    · simp [TRenderers.assign, hk]
    · simp [TRenderers.assign, hk, ih]

/-- One iteration keeps the keys, the active overlay and the stored key. -/
theorem step_frame (I : Capabilities SR H Area Key Point) (self : LayerRenderer SR H Key)
    (node : EWidget × Point) :
    (step I self node).m_renderers.map Prod.fst = self.m_renderers.map Prod.fst ∧
      (step I self node).m_activeOverlay = self.m_activeOverlay ∧
      (step I self node).m_activeOverlayId = self.m_activeOverlayId := by
  cases hfind : TRenderers.find node.1 self.m_renderers with
  | none => simp [step, hfind]
  | some s => simp [step, hfind, assign_keys]

theorem step_find_other (I : Capabilities SR H Area Key Point) (self : LayerRenderer SR H Key)
    (node : EWidget × Point) {k : EWidget} (hne : node.1 ≠ k) :
    TRenderers.find k (step I self node).m_renderers = TRenderers.find k self.m_renderers := by
  cases hfind : TRenderers.find node.1 self.m_renderers with
  | none => simp [step, hfind]
  | some s => simp [step, hfind, TRenderers.find_assign_of_ne hne]

theorem step_find_pivot (I : Capabilities SR H Area Key Point) (self : LayerRenderer SR H Key)
    (node : EWidget × Point) {s : SR}
    (hfind : TRenderers.find node.1 self.m_renderers = some s) :
    TRenderers.find node.1 (step I self node).m_renderers = some (I.SetPivot s node.2) := by
  simp only [step, hfind]
  exact TRenderers.find_assign_self _ _ _ (by simp [hfind])

theorem frame (I : Capabilities SR H Area Key Point) :
    ∀ (info : List (EWidget × Point)) (self : LayerRenderer SR H Key),
      (SetLayout I self info).m_renderers.map Prod.fst = self.m_renderers.map Prod.fst ∧
        (SetLayout I self info).m_activeOverlay = self.m_activeOverlay ∧
        (SetLayout I self info).m_activeOverlayId = self.m_activeOverlayId := by
  intro info
  induction info with
  | nil => intro self; exact ⟨rfl, rfl, rfl⟩
  | cons n ns ih =>
    intro self
    have h1 := ih (step I self n)
    have h2 := step_frame I self n
    simp only [SetLayout, List.foldl_cons] at h1 ⊢
    exact ⟨h1.1.trans h2.1, h1.2.1.trans h2.2.1, h1.2.2.trans h2.2.2⟩

theorem find_of_forall_ne (I : Capabilities SR H Area Key Point) {k : EWidget} :
    ∀ (info : List (EWidget × Point)) (self : LayerRenderer SR H Key),
      (∀ n ∈ info, n.1 ≠ k) →
      TRenderers.find k (SetLayout I self info).m_renderers =
        TRenderers.find k self.m_renderers := by
  intro info
  induction info with
  | nil => intro self _; rfl
  | cons n ns ih =>
    intro self h
    have h1 := ih (step I self n) (fun q hq => h q (List.mem_cons_of_mem _ hq))
    simp only [SetLayout, List.foldl_cons] at h1 ⊢
    rw [h1]
    exact step_find_other I self n (h n (List.mem_cons_self _ _))

theorem find_of_find (I : Capabilities SR H Area Key Point) {k : EWidget} {p : Point} :
    ∀ (info : List (EWidget × Point)) (self : LayerRenderer SR H Key) (s : SR),
      TRenderers.WF info → TRenderers.find k info = some p →
      TRenderers.find k self.m_renderers = some s →
      TRenderers.find k (SetLayout I self info).m_renderers = some (I.SetPivot s p) := by
  intro info
  induction info with
  | nil => intro self s _ h; simp [TRenderers.find] at h
  | cons n ns ih =>
    obtain ⟨k1, p1⟩ := n
    intro self s hwf hinfo hself
    by_cases hk : k1 = k
    · subst hk
      simp [TRenderers.find] at hinfo
      subst hinfo
      have h1 := find_of_forall_ne I ns (step I self (k1, p1)) (TRenderers.WF.head_ne hwf)
      simp only [SetLayout, List.foldl_cons] at h1 ⊢
      rw [h1]
      exact step_find_pivot I self (k1, p1) hself
    · simp only [TRenderers.find, hk, if_false] at hinfo
      have h1 := ih (step I self (k1, p1)) s (TRenderers.WF.tail hwf) hinfo
        (by rw [step_find_other I self (k1, p1) hk]; exact hself)
      simp only [SetLayout, List.foldl_cons] at h1 ⊢
      exact h1

end SetLayout

/-- C14. SetLayout touches only kinds present in both maps: after `SetLayout` the owned
kinds are the same, in the same order (so a layout key that is not owned inserts
nothing); an owned kind that is a key of the layout map holds its shape renderer with
the pivot set to the point of the layout map; an owned kind that is not a key of the
layout map holds its shape renderer unchanged; the active overlay and the stored key are
unchanged. -/
theorem SetLayout_touches_common_kinds (I : Capabilities SR H Area Key Point)
    (self : LayerRenderer SR H Key) (info : List (EWidget × Point)) :
    (SetLayout I self info).m_renderers.map Prod.fst = self.m_renderers.map Prod.fst ∧
    (TRenderers.WF info → ∀ k s p, TRenderers.find k self.m_renderers = some s →
      TRenderers.find k info = some p →
      TRenderers.find k (SetLayout I self info).m_renderers = some (I.SetPivot s p)) ∧
    (∀ k, TRenderers.find k info = none →
      TRenderers.find k (SetLayout I self info).m_renderers =
        TRenderers.find k self.m_renderers) ∧
    (SetLayout I self info).m_activeOverlay = self.m_activeOverlay ∧
    (SetLayout I self info).m_activeOverlayId = self.m_activeOverlayId := by
  have hf := SetLayout.frame I info self
  refine ⟨hf.1, ?_, ?_, hf.2.1, hf.2.2⟩
  · intro hwf k s p hs hp
    exact SetLayout.find_of_find I info self s hwf hp hs
  · intro k hk
    exact SetLayout.find_of_forall_ne I info self
      (TRenderers.forall_ne_of_find_eq_none info hk)

/-- Witness of C14: a layout for the compass and for a scale label, applied to
`demoLayer`, which owns no scale label: the compass gets pivot 5, the ruler is unchanged
and the owned kinds stay ruler, compass, copyright. -/
theorem SetLayout_touches_common_kinds_witness :
    TRenderers.WF [(EWidget.WIDGET_COMPASS, 5), (EWidget.WIDGET_SCALE_LABEL, 9)] ∧
      TRenderers.find EWidget.WIDGET_COMPASS
          (SetLayout demo demoLayer
            [(EWidget.WIDGET_COMPASS, 5), (EWidget.WIDGET_SCALE_LABEL, 9)]).m_renderers
        = some (demo.SetPivot { pivot := 0, handles := [demoCompassHandle] } 5) ∧
      TRenderers.find EWidget.WIDGET_RULER
          (SetLayout demo demoLayer
            [(EWidget.WIDGET_COMPASS, 5), (EWidget.WIDGET_SCALE_LABEL, 9)]).m_renderers
        = TRenderers.find EWidget.WIDGET_RULER demoLayer.m_renderers ∧
      (SetLayout demo demoLayer
          [(EWidget.WIDGET_COMPASS, 5), (EWidget.WIDGET_SCALE_LABEL, 9)]).m_renderers.map Prod.fst
        = [EWidget.WIDGET_RULER, EWidget.WIDGET_COMPASS, EWidget.WIDGET_COPYRIGHT] :=
  ⟨by decide,
    (SetLayout_touches_common_kinds demo demoLayer
      [(EWidget.WIDGET_COMPASS, 5), (EWidget.WIDGET_SCALE_LABEL, 9)]).2.1 (by decide)
      EWidget.WIDGET_COMPASS _ 5 (by decide) (by decide),
    (SetLayout_touches_common_kinds demo demoLayer
      [(EWidget.WIDGET_COMPASS, 5), (EWidget.WIDGET_SCALE_LABEL, 9)]).2.2.1
      EWidget.WIDGET_RULER (by decide),
    by decide⟩

/-! ### Merge without an active overlay, and the stored key -/

/-- C18. Merge without an active overlay does not create one: if A has no active overlay
before the call, whatever key it has stored, then `A.Merge(B)` fires no event, leaves A
without an active overlay and leaves its stored key unchanged. -/
theorem Merge_without_active_overlay (I : Capabilities SR H Area Key Point)
    (A B : LayerRenderer SR H Key) (hnone : A.m_activeOverlay = none) :
    (Merge I A B).2.2 = [] ∧
      (Merge I A B).1.m_activeOverlay = none ∧
      (Merge I A B).1.m_activeOverlayId = A.m_activeOverlayId := by
  have hk := Merge.loop_keep I B.m_renderers (A, false, []) (Or.inr hnone)
  exact ⟨hk.2.2, hk.1.trans hnone, Merge.loop_activeOverlayId I B.m_renderers (A, false, [])⟩

/-- Witness of C18: `demoMissed` has no active overlay and stores key 7, which the
incoming compass of `demoSnapshotKept` resolves; the merge fires nothing and creates no
active overlay. -/
theorem Merge_without_active_overlay_witness :
    demo.FindHandle { pivot := 0, handles := [demoCompassHandleNew] } demoMissed.m_activeOverlayId
        = some demoCompassHandleNew ∧
      (Merge demo demoMissed demoSnapshotKept).2.2 = [] ∧
      (Merge demo demoMissed demoSnapshotKept).1.m_activeOverlay = none ∧
      (Merge demo demoMissed demoSnapshotKept).1.m_activeOverlayId = 7 :=
  ⟨by decide, Merge_without_active_overlay demo demoMissed demoSnapshotKept rfl⟩

/-- One iteration of `Merge` keeps the stored key equal to the key of the active overlay,
when `FindHandle` returns handles carrying the key asked for. -/
theorem Merge.merge_step_key_consistent (I : Capabilities SR H Area Key Point)
    (hkey : ∀ s k h, I.FindHandle s k = some h → I.GetFeatureId h = k)
    (acc : LayerRenderer SR H Key × Bool × List (Event H)) (r : EWidget × SR)
    (hinv : ∀ h, acc.1.m_activeOverlay = some h → acc.1.m_activeOverlayId = I.GetFeatureId h) :
    ∀ h, (Merge.step I acc r).1.m_activeOverlay = some h →
      (Merge.step I acc r).1.m_activeOverlayId = I.GetFeatureId h := by
  intro h hact
  rw [Merge.step_activeOverlayId]
  by_cases hkeep : acc.2.1 = true ∨ acc.1.m_activeOverlay = none ∨
      TRenderers.find r.1 acc.1.m_renderers = none ∨
      I.FindHandle r.2 acc.1.m_activeOverlayId = none
  · rw [(Merge.step_keep I acc r hkeep).1] at hact
    exact hinv h hact
  · simp only [not_or] at hkeep
    obtain ⟨h1, h2, h3, h4⟩ := hkeep
    obtain ⟨e, he⟩ := Option.ne_none_iff_exists'.1 h4
    have hs := Merge.step_reattach I acc r (by simpa using h1)
      (by cases hx : acc.1.m_activeOverlay <;> simp_all)
      (by cases hx : TRenderers.find r.1 acc.1.m_renderers <;> simp_all) he
    rw [hs.1] at hact
    cases hact
    exact (hkey _ _ _ he).symm

theorem Merge.merge_loop_key_consistent (I : Capabilities SR H Area Key Point)
    (hkey : ∀ s k h, I.FindHandle s k = some h → I.GetFeatureId h = k) :
    ∀ (rs : List (EWidget × SR)) (acc : LayerRenderer SR H Key × Bool × List (Event H)),
      (∀ h, acc.1.m_activeOverlay = some h → acc.1.m_activeOverlayId = I.GetFeatureId h) →
      ∀ h, (Merge.loop I rs acc).1.m_activeOverlay = some h →
        (Merge.loop I rs acc).1.m_activeOverlayId = I.GetFeatureId h := by
  intro rs
  induction rs with
  | nil => intro acc hinv; exact hinv
  | cons r rs ih =>
    intro acc hinv
    exact ih (Merge.step I acc r) (Merge.merge_step_key_consistent I hkey acc r hinv)

theorem OnTouchDown.tap_loop_key_consistent (I : Capabilities SR H Area Key Point)
    (touchArea : Area) :
    ∀ (rs : List (EWidget × SR)) (self : LayerRenderer SR H Key) (tr : List (Event H)),
      (∀ h, self.m_activeOverlay = some h → self.m_activeOverlayId = I.GetFeatureId h) →
      ∀ h, (OnTouchDown.loop I touchArea rs self tr).2.1.m_activeOverlay = some h →
        (OnTouchDown.loop I touchArea rs self tr).2.1.m_activeOverlayId = I.GetFeatureId h := by
  intro rs
  induction rs with
  | nil => intro self tr hinv; exact hinv
  | cons r rs ih =>
    intro self tr hinv h
    cases hp : I.ProcessTapEvent r.2 touchArea with
    | some h1 =>
      simp only [OnTouchDown.loop, hp]
      intro hact
      cases hact
      rfl
    | none =>
      simp only [OnTouchDown.loop, hp]
      exact ih _ _ (by intro h2 hh; cases hh) h

theorem AddShapeRenderer_frame {st st1 : LayerRenderer SR H Key} {w : EWidget}
    {shape : Option SR} (h : AddShapeRenderer st w shape = some st1) :
    st1.m_activeOverlay = st.m_activeOverlay ∧ st1.m_activeOverlayId = st.m_activeOverlayId := by
  cases shape with
  | none =>
    simp only [AddShapeRenderer, Option.some.injEq] at h
    subst h
    exact ⟨rfl, rfl⟩
  | some s =>
    cases hv : VERIFY (TRenderers.insert w s st.m_renderers).2 with
    | none => simp [AddShapeRenderer, hv] at h
    | some u =>
      simp only [AddShapeRenderer, hv, Option.some.injEq] at h
      subst h
      exact ⟨rfl, rfl⟩

/-- In every reachable state the stored key is the key of the active overlay, if one is
present, when `FindHandle` returns handles carrying the key asked for. -/
theorem Reachable.key_consistent (I : Capabilities SR H Area Key Point)
    (hkey : ∀ s k h, I.FindHandle s k = some h → I.GetFeatureId h = k)
    {st : LayerRenderer SR H Key} (hst : Reachable I st) :
    ∀ h, st.m_activeOverlay = some h → st.m_activeOverlayId = I.GetFeatureId h := by
  induction hst with
  | empty => intro h hh; cases hh
  | @addShapeRenderer st0 st1 w shape _ hadd ih =>
    intro h hh
    have hf := AddShapeRenderer_frame hadd
    rw [hf.2]
    exact ih h (hf.1 ▸ hh)
  | @merge st0 other _ _ ih _ =>
    exact Merge.merge_loop_key_consistent I hkey other.m_renderers (st0, false, []) ih
  | @merged st0 other _ _ _ ih =>
    exact ih
  | @setLayout st0 info _ ih =>
    intro h hh
    have hf := SetLayout.frame I info st0
    rw [hf.2.2]
    exact ih h (hf.2.1 ▸ hh)
  | @onTouchDown st0 area _ ih =>
    exact OnTouchDown.tap_loop_key_consistent I area st0.m_renderers st0 [] ih
  | @onTouchUp st0 area _ ih =>
    intro h hh
    cases hact : st0.m_activeOverlay with
    | none =>
      simp only [OnTouchUp, hact] at hh ⊢
      exact ih h (hact ▸ hh)
    | some h0 => simp [OnTouchUp, hact] at hh
  | @onTouchCancel st0 area _ ih =>
    intro h hh
    cases hact : st0.m_activeOverlay with
    | none =>
      simp only [OnTouchCancel, hact] at hh ⊢
      exact ih h (hact ▸ hh)
    | some h0 => simp [OnTouchCancel, hact] at hh
  | @destroyRenderers st0 _ ih =>
    exact ih

/-- C19. Key/handle consistency: assuming `FindHandle(K)` only returns handles whose
element key is `K`, in every state reachable from an empty layer renderer the stored key
equals the element key of the active overlay whenever one is present; a present stored
key does not imply a present overlay, because an OnTouchDown that misses on a non-empty
map of a reachable state reaches a state without active overlay and with the stored key
it had before. -/
theorem key_handle_consistency (I : Capabilities SR H Area Key Point) :
    ((∀ s k h, I.FindHandle s k = some h → I.GetFeatureId h = k) →
      ∀ st, Reachable I st → ∀ h, st.m_activeOverlay = some h →
        st.m_activeOverlayId = I.GetFeatureId h) ∧
    (∀ (st : LayerRenderer SR H Key) (area : Area), Reachable I st → st.m_renderers ≠ [] →
      (∀ p ∈ st.m_renderers, I.ProcessTapEvent p.2 area = none) →
      Reachable I (OnTouchDown I st area).2.1 ∧
        (OnTouchDown I st area).2.1.m_activeOverlay = none ∧
        (OnTouchDown I st area).2.1.m_activeOverlayId = st.m_activeOverlayId) := by
  constructor
  · intro hkey st hst
    exact Reachable.key_consistent I hkey hst
  · intro st area hst hne hmiss
    refine ⟨Reachable.onTouchDown area hst, ?_, ?_⟩
    · simp only [OnTouchDown]
      rw [OnTouchDown.loop_miss I area st.m_renderers st [] hmiss]
      cases hm : st.m_renderers with
      | nil => exact absurd hm hne
      | cons q rs => simp
    · simp only [OnTouchDown]
      rw [OnTouchDown.loop_miss I area st.m_renderers st [] hmiss]

/-- Witness of C19: in the reachable state `demoPressed` the stored key 7 is the key of
the pressed compass handle; a touch-down on area 5 misses its three widgets and reaches a
state without active overlay that still stores 7, not the default key 0. -/
theorem key_handle_consistency_witness :
    demoPressed.m_activeOverlay = some demoCompassHandle ∧
      demoPressed.m_activeOverlayId = demo.GetFeatureId demoCompassHandle ∧
      (Reachable demo (OnTouchDown demo demoPressed 5).2.1 ∧
        (OnTouchDown demo demoPressed 5).2.1.m_activeOverlay = none ∧
        (OnTouchDown demo demoPressed 5).2.1.m_activeOverlayId = demoPressed.m_activeOverlayId) ∧
      demoPressed.m_activeOverlayId ≠ demo.FeatureID_default :=
  ⟨rfl,
    (key_handle_consistency demo).1 demo_lawful.findHandle_key demoPressed
      demoPressed_reachable demoCompassHandle rfl,
    (key_handle_consistency demo).2 demoPressed 5 demoPressed_reachable (by decide) (by decide),
    by decide⟩

/-! ### The scale label -/

/-- C15. Scale-label debounce: `Update` calls `SetContent` exactly when the draw-tile
scale of the screen differs from the remembered scale, then once and with the content
"Scale : " followed by the decimal rendering of the new scale, and afterwards the
remembered scale is that of the screen; so of two consecutive updates the second sets
no content when the two scales are equal, and sets the content of the second scale,
once, when they differ. -/
theorem ScaleLabelHandle_debounce {Screen : Type} (G : Screen → Int)
    (self : ScaleLabelHandle) (screen next : Screen) :
    (self.m_scale ≠ G screen →
      setContents (ScaleLabelHandle.Update G self screen).2 =
        [ScaleLabelHandle.content (G screen)]) ∧
    (self.m_scale = G screen → setContents (ScaleLabelHandle.Update G self screen).2 = []) ∧
    (ScaleLabelHandle.Update G self screen).1.m_scale = G screen ∧
    (G next = G screen →
      setContents (ScaleLabelHandle.Update G (ScaleLabelHandle.Update G self screen).1 next).2
        = []) ∧
    (G next ≠ G screen →
      setContents (ScaleLabelHandle.Update G (ScaleLabelHandle.Update G self screen).1 next).2
        = [ScaleLabelHandle.content (G next)]) := by
  have hscale : ∀ (h : ScaleLabelHandle) (x : Screen),
      (ScaleLabelHandle.Update G h x).1.m_scale = G x := by
    intro h x
    by_cases hc : h.m_scale = G x
    · simp [ScaleLabelHandle.Update, hc]
    · simp [ScaleLabelHandle.Update, hc]
  have hdiff : ∀ (h : ScaleLabelHandle) (x : Screen), h.m_scale ≠ G x →
      setContents (ScaleLabelHandle.Update G h x).2 = [ScaleLabelHandle.content (G x)] := by
    intro h x hc
    simp [ScaleLabelHandle.Update, hc, setContents]
  have hsame : ∀ (h : ScaleLabelHandle) (x : Screen), h.m_scale = G x →
      setContents (ScaleLabelHandle.Update G h x).2 = [] := by
    intro h x hc
    simp [ScaleLabelHandle.Update, hc, setContents]
  refine ⟨hdiff self screen, hsame self screen, hscale self screen, ?_, ?_⟩
  · intro h
    exact hsame _ next ((hscale self screen).trans h.symm)
  · intro h
    exact hdiff _ next (by rw [hscale self screen]; exact fun heq => h heq.symm)

/-- Witness of C15: a new handle remembers scale 0; the update to scale 12 sets the
content "Scale : 12", a second update at scale 12 sets nothing, and an update to scale
13 sets "Scale : 13". -/
theorem ScaleLabelHandle_debounce_witness :
    setContents (ScaleLabelHandle.Update (fun x : Int => x) ScaleLabelHandle.create 12).2
        = ["Scale : 12"] ∧
      setContents (ScaleLabelHandle.Update (fun x : Int => x)
          (ScaleLabelHandle.Update (fun x : Int => x) ScaleLabelHandle.create 12).1 12).2 = [] ∧
      setContents (ScaleLabelHandle.Update (fun x : Int => x)
          (ScaleLabelHandle.Update (fun x : Int => x) ScaleLabelHandle.create 12).1 13).2
        = [ScaleLabelHandle.content 13] ∧
      ScaleLabelHandle.content 13 = "Scale : 13" :=
  ⟨by decide,
    (ScaleLabelHandle_debounce (fun x : Int => x) ScaleLabelHandle.create 12 12).2.2.2.1 rfl,
    (ScaleLabelHandle_debounce (fun x : Int => x) ScaleLabelHandle.create 12 13).2.2.2.2
      (by decide),
    by decide⟩

theorem toDigitsCore_length_le (b : Nat) :
    ∀ (fuel n : Nat) (ds : List Char), ds.length ≤ (Nat.toDigitsCore b fuel n ds).length := by
  intro fuel
  induction fuel with
  | zero => intro n ds; simp [Nat.toDigitsCore]
  | succ f ih =>
    intro n ds
    simp only [Nat.toDigitsCore]
    split
    · simp
    · exact Nat.le_trans (by simp) (ih _ _)

/-- The decimal rendering of a number from 100 on has at least three digits. -/
theorem repr_length_ge (n : Nat) (h : 100 ≤ n) : 3 ≤ (Nat.repr n).length := by
  obtain ⟨f, rfl⟩ : ∃ f, n = f + 2 := ⟨n - 2, by omega⟩
  have h1 : ¬ (f + 2) / 10 = 0 := by omega
  have h2 : ¬ (f + 2) / 10 / 10 = 0 := by omega
  simp only [Nat.repr, Nat.toDigits, Nat.toDigitsCore, h1, h2, if_false, String.length,
    List.asString]
  split
  · simp
  · exact Nat.le_trans (by simp) (toDigitsCore_length_le _ _ _ _)

set_option maxRecDepth 100000 in
/-- The contents for the scales 0 to 99, checked one by one. -/
theorem content_fits_upto_99 : ∀ n : Nat, n ≤ 99 →
    (ScaleLabelHandle.content (Int.ofNat n)).length ≤ CacheScaleLabel.params.m_maxLength ∧
      ∀ c ∈ (ScaleLabelHandle.content (Int.ofNat n)).data,
        c ∈ CacheScaleLabel.params.m_alphabet.data := by
  decide

/-- C20. Scale-label content fits its declared glyph budget: for every scale `s` with
`0 ≤ s ≤ 99` the content "Scale : " followed by the decimal rendering of `s` has length
at most the declared maximum length 10 and only characters of the declared alphabet
"Scale: 1234567890"; for `s ≥ 100` it is longer than the maximum length, and for `s < 0`
it has a character outside the alphabet. -/
theorem ScaleLabel_content_fits (s : Int) :
    (0 ≤ s → s ≤ 99 →
      (ScaleLabelHandle.content s).length ≤ CacheScaleLabel.params.m_maxLength ∧
        ∀ c ∈ (ScaleLabelHandle.content s).data, c ∈ CacheScaleLabel.params.m_alphabet.data) ∧
    (100 ≤ s → CacheScaleLabel.params.m_maxLength < (ScaleLabelHandle.content s).length) ∧
    (s < 0 → ∃ c ∈ (ScaleLabelHandle.content s).data,
      c ∉ CacheScaleLabel.params.m_alphabet.data) := by
  cases s with
  | ofNat n =>
    refine ⟨?_, ?_, ?_⟩
    · intro _ h99
      rw [Int.ofNat_eq_coe] at h99
      exact content_fits_upto_99 n (by omega)
    · intro h100
      rw [Int.ofNat_eq_coe] at h100
      have hlen := repr_length_ge n (by omega)
      have : (ScaleLabelHandle.content (Int.ofNat n)).length = 8 + (Nat.repr n).length := by
        simp only [ScaleLabelHandle.content, to_string, String.length_append]
        rfl
      rw [this]
      show 10 < 8 + (Nat.repr n).length
      omega
    · intro hneg
      exact absurd hneg (by simp)
  | negSucc m =>
    refine ⟨?_, ?_, ?_⟩
    · intro h0
      exact absurd h0 (by simp)
    · intro h100
      have hneg := Int.negSucc_lt_zero m
      omega
    · intro _
      refine ⟨'-', ?_, by decide⟩
      simp only [ScaleLabelHandle.content, to_string, String.data_append, List.mem_append]
      exact Or.inr (Or.inl (by decide))

/-- Witness of C20: scale 42 gives a content of length 10 within the alphabet, scale
100 a content of length 11, and scale -1 a content with a minus sign. -/
theorem ScaleLabel_content_fits_witness :
    ScaleLabelHandle.content 42 = "Scale : 42" ∧
      (ScaleLabelHandle.content 42).length ≤ CacheScaleLabel.params.m_maxLength ∧
      CacheScaleLabel.params.m_maxLength < (ScaleLabelHandle.content 100).length ∧
      (∃ c ∈ (ScaleLabelHandle.content (-1)).data,
        c ∉ CacheScaleLabel.params.m_alphabet.data) :=
  ⟨by decide,
    ((ScaleLabel_content_fits 42).1 (by decide) (by decide)).1,
    (ScaleLabel_content_fits 100).2.1 (by decide),
    (ScaleLabel_content_fits (-1)).2.2 (by decide)⟩

/-! ### `LayerCacher::RecacheWidgets` -/

namespace LayerCacher

theorem call_eq {Position : Type} (D : Drawers SR Position) (f : CacheFunction)
    (position : Position) (renderer : LayerRenderer SR H Key) :
    f.call D position renderer = AddShapeRenderer renderer f.kind (f.shape D position) := by
  cases f <;> rfl

/-- Every cache function is bound under the kind it registers. -/
theorem kind_of_find {k : EWidget} {f : CacheFunction}
    (h : TRenderers.find k cacheFunctions = some f) : f.kind = k := by
  cases k <;> simp [cacheFunctions, TRenderers.find] at h <;> subst h <;> rfl

/-- The kinds with a cache function are compass, ruler, copyright and scale-label. -/
theorem find_isSome_iff (k : EWidget) :
    (TRenderers.find k cacheFunctions).isSome = true ↔
      k ∈ [EWidget.WIDGET_COMPASS, EWidget.WIDGET_RULER, EWidget.WIDGET_COPYRIGHT,
        EWidget.WIDGET_SCALE_LABEL] := by
  cases k <;> simp [cacheFunctions, TRenderers.find]

/-- One node of the init map: the loop continues from a renderer that holds, for the key
of the node, what the cache function bound to that key built (nothing if none is bound),
and is otherwise as before; the event is the call of that function, if one is bound. -/
theorem loop_cons {Position : Type} (D : Drawers SR Position) (k1 : EWidget) (p1 : Position)
    (rest : List (EWidget × Position)) (renderer : LayerRenderer SR H Key)
    (tr : List (CacheEvent Position))
    (hfree : TRenderers.find k1 renderer.m_renderers = none) :
    ∃ mid : LayerRenderer SR H Key,
      RecacheWidgets.loop D ((k1, p1) :: rest) renderer tr =
        RecacheWidgets.loop D rest mid
          (tr ++ ((TRenderers.find k1 cacheFunctions).map
            (fun f => CacheEvent.Call f p1)).toList) ∧
      mid.m_activeOverlay = renderer.m_activeOverlay ∧
      mid.m_activeOverlayId = renderer.m_activeOverlayId ∧
      TRenderers.find k1 mid.m_renderers =
        (TRenderers.find k1 cacheFunctions).bind (fun f => f.shape D p1) ∧
      (∀ k, k1 ≠ k → TRenderers.find k mid.m_renderers = TRenderers.find k renderer.m_renderers) := by
  cases hf : TRenderers.find k1 cacheFunctions with
  | none =>
    refine ⟨renderer, ?_, rfl, rfl, ?_, fun _ _ => rfl⟩
    · simp [RecacheWidgets.loop, hf]
    · simpa using hfree
  | some f =>
    have hkind := kind_of_find hf
    cases hs : f.shape D p1 with
    | none =>
      refine ⟨renderer, ?_, rfl, rfl, ?_, fun _ _ => rfl⟩
      · simp [RecacheWidgets.loop, hf, call_eq, hs, AddShapeRenderer]
      · simpa [hs] using hfree
    | some s =>
      have hflag := TRenderers.insert_snd_of_find_none s renderer.m_renderers hfree
      refine ⟨{ renderer with m_renderers := (TRenderers.insert k1 s renderer.m_renderers).1 },
        ?_, rfl, rfl, ?_, ?_⟩
      · simp [RecacheWidgets.loop, hf, call_eq, hs, AddShapeRenderer, hkind, VERIFY, hflag]
      · simpa [hs] using TRenderers.find_insert_self k1 s renderer.m_renderers hfree
      · intro k hk
        exact TRenderers.find_insert_of_ne hk s renderer.m_renderers

/-- The loop never aborts on an init map with distinct keys none of which is owned yet;
it calls, in order, the cache function bound to each key that has one, with the position
of that key, and the entry of a kind afterwards is what the function bound to it built
from the position the init map gives it, or the entry it had before. -/
theorem loop_spec {Position : Type} (D : Drawers SR Position) :
    ∀ (nodes : List (EWidget × Position)) (renderer : LayerRenderer SR H Key)
      (tr : List (CacheEvent Position)),
      (nodes.map Prod.fst).Nodup →
      (∀ n ∈ nodes, TRenderers.find n.1 renderer.m_renderers = none) →
      ∃ out : LayerRenderer SR H Key,
        RecacheWidgets.loop D nodes renderer tr =
          some (out, tr ++ nodes.filterMap (fun n =>
            (TRenderers.find n.1 cacheFunctions).map (fun f => CacheEvent.Call f n.2))) ∧
        out.m_activeOverlay = renderer.m_activeOverlay ∧
        out.m_activeOverlayId = renderer.m_activeOverlayId ∧
        ∀ k, TRenderers.find k out.m_renderers =
          ((TRenderers.find k nodes).bind (fun position =>
            (TRenderers.find k cacheFunctions).bind (fun f => f.shape D position))).orElse
              (fun _ => TRenderers.find k renderer.m_renderers) := by
  intro nodes
  induction nodes with
  | nil =>
    intro renderer tr _ _
    exact ⟨renderer, by simp [RecacheWidgets.loop], rfl, rfl, by intro k; simp [TRenderers.find]⟩
  | cons n rest ih =>
    obtain ⟨k1, p1⟩ := n
    intro renderer tr hnd hfree
    rw [List.map_cons, List.nodup_cons] at hnd
    have hne : ∀ c ∈ rest, k1 ≠ c.1 := by
      intro c hc heq
      exact hnd.1 (heq ▸ List.mem_map.2 ⟨c, hc, rfl⟩)
    obtain ⟨mid, hloop, ha, hi, hself, hother⟩ :=
      loop_cons D k1 p1 rest renderer tr (hfree (k1, p1) (List.mem_cons_self _ _))
    obtain ⟨out, hout, ha2, hi2, hfind⟩ := ih mid
      (tr ++ ((TRenderers.find k1 cacheFunctions).map (fun f => CacheEvent.Call f p1)).toList)
      hnd.2 (by
        intro c hc
        rw [hother c.1 (hne c hc)]
        exact hfree c (List.mem_cons_of_mem _ hc))
    refine ⟨out, ?_, ha2.trans ha, hi2.trans hi, ?_⟩
    · rw [hloop, hout]
      cases hc : TRenderers.find k1 cacheFunctions <;> simp [List.filterMap_cons, hc]
    · intro k
      rw [hfind k]
      by_cases hk : k1 = k
      · subst hk
        have hrest : TRenderers.find k1 rest = none :=
          TRenderers.find_eq_none_of_forall_ne rest (fun c hc => (hne c hc).symm)
        have h0 : TRenderers.find k1 renderer.m_renderers = none :=
          hfree (k1, p1) (List.mem_cons_self _ _)
        rw [hrest, hself, TRenderers.find_cons_self, h0]
        cases hb : (TRenderers.find k1 cacheFunctions).bind (fun f => f.shape D p1) <;>
          simp [hb]
      · rw [hother k hk, TRenderers.find_cons_of_ne hk]

end LayerCacher

/-- C17. RecacheWidgets skips unknown kinds: for every init map (distinct keys in key
order) `RecacheWidgets` does not abort; its calls are, in the order of the init map, one
call of the bound cache function with the position of the key for every key that has a
cache function, none for any other key, and the final flush; the returned renderer owns
a kind only if it is a key of the init map and one of compass, ruler, copyright,
scale-label; the entry of such a key is the shape its cache function built; and when
every called function builds a non-null shape, the owned kinds are exactly the keys of
the init map among those four kinds. -/
theorem RecacheWidgets_skips_unknown {Position : Type} (I : Capabilities SR H Area Key Point)
    (D : Drawers SR Position) (initInfo : List (EWidget × Position))
    (hwf : TRenderers.WF initInfo) :
    ∃ (renderer : LayerRenderer SR H Key) (tr : List (CacheEvent Position)),
      LayerCacher.RecacheWidgets I D initInfo = some (renderer, tr) ∧
      tr = initInfo.filterMap (fun n =>
          (TRenderers.find n.1 LayerCacher.cacheFunctions).map
            (fun f => CacheEvent.Call f n.2)) ++ [CacheEvent.glFlush] ∧
      (∀ k, HasWidget renderer k = true →
        (TRenderers.find k initInfo).isSome = true ∧
          k ∈ [EWidget.WIDGET_COMPASS, EWidget.WIDGET_RULER, EWidget.WIDGET_COPYRIGHT,
            EWidget.WIDGET_SCALE_LABEL]) ∧
      (∀ k position f, TRenderers.find k initInfo = some position →
        TRenderers.find k LayerCacher.cacheFunctions = some f →
        f.kind = k ∧ TRenderers.find k renderer.m_renderers = f.shape D position) ∧
      ((∀ n ∈ initInfo, ∀ f, TRenderers.find n.1 LayerCacher.cacheFunctions = some f →
          (f.shape D n.2).isSome = true) →
        ∀ k, HasWidget renderer k = true ↔
          ((TRenderers.find k initInfo).isSome = true ∧
            k ∈ [EWidget.WIDGET_COMPASS, EWidget.WIDGET_RULER, EWidget.WIDGET_COPYRIGHT,
              EWidget.WIDGET_SCALE_LABEL])) := by
  have hnd := TRenderers.WF.nodup_keys initInfo hwf
  obtain ⟨out, hout, -, -, hfind⟩ :=
    LayerCacher.loop_spec D initInfo (LayerRenderer.empty I) [] hnd (by intro n _; rfl)
  have hfind2 : ∀ k, TRenderers.find k out.m_renderers =
      (TRenderers.find k initInfo).bind (fun position =>
        (TRenderers.find k LayerCacher.cacheFunctions).bind (fun f => f.shape D position)) := by
    intro k
    rw [hfind k]
    simp [LayerRenderer.empty, TRenderers.find]
  have honly : ∀ k, HasWidget out k = true →
      (TRenderers.find k initInfo).isSome = true ∧
        k ∈ [EWidget.WIDGET_COMPASS, EWidget.WIDGET_RULER, EWidget.WIDGET_COPYRIGHT,
          EWidget.WIDGET_SCALE_LABEL] := by
    intro k hk
    simp only [HasWidget, hfind2 k] at hk
    cases hi : TRenderers.find k initInfo with
    | none => simp [hi] at hk
    | some position =>
      refine ⟨rfl, (LayerCacher.find_isSome_iff k).1 ?_⟩
      cases hc : TRenderers.find k LayerCacher.cacheFunctions with
      | none => simp [hi, hc] at hk
      | some f => rfl
  refine ⟨out, initInfo.filterMap (fun n =>
      (TRenderers.find n.1 LayerCacher.cacheFunctions).map
        (fun f => CacheEvent.Call f n.2)) ++ [CacheEvent.glFlush],
    by simp [LayerCacher.RecacheWidgets, hout], rfl, honly, ?_, ?_⟩
  · intro k position f hi hc
    refine ⟨LayerCacher.kind_of_find hc, ?_⟩
    rw [hfind2 k]
    simp [hi, hc]
  · intro hall k
    refine ⟨honly k, ?_⟩
    rintro ⟨hi, hreg⟩
    obtain ⟨position, hpos⟩ := Option.isSome_iff_exists.1 hi
    obtain ⟨f, hf⟩ := Option.isSome_iff_exists.1 ((LayerCacher.find_isSome_iff k).2 hreg)
    have hmem : (k, position) ∈ initInfo :=
      (TRenderers.find_eq_some_iff_mem initInfo hnd).1 hpos
    have := hall (k, position) hmem f hf
    simp only [HasWidget, hfind2 k, hpos, hf, Option.bind]
    exact this

/-- Witness of C17: an init map with ruler, compass, scale label and the
choose-position mark; the three registered cache functions are called once each with
their positions, the mark is skipped, and the renderer owns exactly the three kinds. -/
theorem RecacheWidgets_skips_unknown_witness :
    TRenderers.WF demoInitInfo ∧
      LayerCacher.RecacheWidgets demo demoDrawers demoInitInfo =
        some ({ m_renderers :=
                  [(EWidget.WIDGET_RULER, { pivot := 1, handles := [] }),
                   (EWidget.WIDGET_COMPASS, { pivot := 2, handles := [demoCompassHandle] }),
                   (EWidget.WIDGET_SCALE_LABEL, { pivot := 3, handles := [] })],
                m_activeOverlay := none,
                m_activeOverlayId := 0 },
              [CacheEvent.Call CacheFunction.CacheRuler 1,
               CacheEvent.Call CacheFunction.CacheCompass 2,
               CacheEvent.Call CacheFunction.CacheScaleLabel 3,
               CacheEvent.glFlush]) ∧
      ∃ (renderer : LayerRenderer DemoShape DemoHandle Nat) (tr : List (CacheEvent Nat)),
        LayerCacher.RecacheWidgets demo demoDrawers demoInitInfo = some (renderer, tr) ∧
        tr = demoInitInfo.filterMap (fun n =>
            (TRenderers.find n.1 LayerCacher.cacheFunctions).map
              (fun f => CacheEvent.Call f n.2)) ++ [CacheEvent.glFlush] ∧
        (∀ k, HasWidget renderer k = true →
          (TRenderers.find k demoInitInfo).isSome = true ∧
            k ∈ [EWidget.WIDGET_COMPASS, EWidget.WIDGET_RULER, EWidget.WIDGET_COPYRIGHT,
              EWidget.WIDGET_SCALE_LABEL]) ∧
        (∀ k position f, TRenderers.find k demoInitInfo = some position →
          TRenderers.find k LayerCacher.cacheFunctions = some f →
          f.kind = k ∧ TRenderers.find k renderer.m_renderers = f.shape demoDrawers position) ∧
        ((∀ n ∈ demoInitInfo, ∀ f, TRenderers.find n.1 LayerCacher.cacheFunctions = some f →
            (f.shape demoDrawers n.2).isSome = true) →
          ∀ k, HasWidget renderer k = true ↔
            ((TRenderers.find k demoInitInfo).isSome = true ∧
              k ∈ [EWidget.WIDGET_COMPASS, EWidget.WIDGET_RULER, EWidget.WIDGET_COPYRIGHT,
                EWidget.WIDGET_SCALE_LABEL])) :=
  ⟨by decide, by decide,
    RecacheWidgets_skips_unknown demo demoDrawers demoInitInfo (by decide)⟩

end gui
